import Mathlib

/-!
# Tic-Tac-Toe server: the game logic of `tttserver.c`

Shallow embedding of the player section of `tttserver.c` (with the constants
of `ttt.h`) and of the reply-channel retry loop of `main`, and of the game
logic of `tttclient.c` (`userTurn`, `processServerResponse`, `clear_board`).

* `ttt_type` is `int`; cells, marks and status codes are integers (`Int`).
  No arithmetic is performed on them, so no wrap-around can occur.
* The globals `_board`, `_server_char`, `_client_char` form the record
  `Server`; functions that assign to a global return the new record, and so
  does `validMove`, to state that it leaves the globals as they are.
* `struct move` is the record `Move`; a function that writes through a
  `struct move*` returns the new record.
* The globals of the client form the record `Client`. Keys read with `getch`
  are a list of integers; the screen is not modelled. The client subscripts
  its board without a bounds test, so its writes return an `Option`.
-/

namespace TTT

/-! ## Constants of `ttt.h` -/

/-- Macro `#define STATUS_OK 0` -/
def STATUS_OK : Int := 0
/-- Macro `#define INVALID_MOVE -1` -/
def INVALID_MOVE : Int := -1
/-- Macro `#define TIED 1` -/
def TIED : Int := 1
/-- Macro `#define CLIENT_WINS 2` -/
def CLIENT_WINS : Int := 2
/-- Macro `#define SERVER_WINS 3` -/
def SERVER_WINS : Int := 3
/-- Macro `#define EMPTY_CELL ' '` (character code 32) -/
def EMPTY_CELL : Int := 32
/-- Macro `#define X_CELL 'X'` (character code 88) -/
def X_CELL : Int := 88
/-- Macro `#define O_CELL 'O'` (character code 79) -/
def O_CELL : Int := 79
/-- Macro `#define BOARD_SIZE 3` -/
def BOARD_SIZE : Int := 3

/-! ## Data model -/

/-- Global `ttt_type _board[BOARD_SIZE][BOARD_SIZE]`: a 3 x 3 matrix of `int`. -/
abbrev Board := Fin 3 → Fin 3 → Int

/-- Record `struct move { int status; int row; int col; }` -/
structure Move where
  status : Int
  row : Int
  col : Int
  deriving DecidableEq, Repr

/-- The globals of `tttserver.c` used by the player section. -/
structure Server where
  board : Board
  server_char : Int
  client_char : Int

/-- The two marks of `struct handshake` (the FIFO names play no part in the game). -/
structure Handshake where
  client_char : Int
  server_char : Int
  deriving DecidableEq, Repr

/-- The values `0, 1, 2` taken by a loop counter `for (i=0; i < BOARD_SIZE; i++)`. -/
def indices : List (Fin 3) := [0, 1, 2]

/-- An `int` that passed the test `0 <= x && BOARD_SIZE > x`, as array subscript. -/
def subscript (x : Int) (h0 : 0 ≤ x) (h1 : BOARD_SIZE > x) : Fin 3 :=
  ⟨x.toNat, by unfold BOARD_SIZE at h1; omega⟩

/-- The assignment `_board[i][j] = v`. -/
def Board.set (b : Board) (i j : Fin 3) (v : Int) : Board :=
  fun i' j' => if i' = i ∧ j' = j then v else b i' j'

/-! ## The player section of `tttserver.c` -/

/-- Function `clear_board`: the two nested loops assign `EMPTY_CELL` to every cell. -/
def clear_board (s : Server) : Server :=
  { s with board :=
      indices.foldl (fun b i => indices.foldl (fun b j => b.set i j EMPTY_CELL) b) s.board }

/-- Function `init_new_game`: take the two marks from the handshake and clear the
board. -/
def init_new_game (s : Server) (hndshk : Handshake) : Server :=
  clear_board { s with server_char := hndshk.server_char, client_char := hndshk.client_char }

/-- Function `validMove`: the status of the client's move, and the globals after the
call (the function makes no assignment). The cell is read only when the four
bound tests before it in the `&&` chain have succeeded. -/
def validMove (s : Server) (client_mv : Move) : Int × Server :=
  if h : 0 ≤ client_mv.row ∧ BOARD_SIZE > client_mv.row ∧
      0 ≤ client_mv.col ∧ BOARD_SIZE > client_mv.col then
    if s.board (subscript client_mv.row h.1 h.2.1) (subscript client_mv.col h.2.2.1 h.2.2.2)
        = EMPTY_CELL then (STATUS_OK, s)
    else (INVALID_MOVE, s)
  else (INVALID_MOVE, s)

/-- One pass through the body of the first loop of `ttt_status`, for the
counter value `i`: the value returned from inside the loop, if any. -/
def statusLoopBody (s : Server) (i : Fin 3) : Option Int :=
  if s.board i 0 = s.board i 1 ∧ s.board i 0 = s.board i 2 ∧ s.board i 0 = s.server_char then
    some SERVER_WINS
  else if s.board i 0 = s.board i 1 ∧ s.board i 0 = s.board i 2 ∧ s.board i 0 = s.client_char then
    some CLIENT_WINS
  else if s.board 0 i = s.board 1 i ∧ s.board 0 i = s.board 2 i ∧ s.board 0 i = s.server_char then
    some SERVER_WINS
  else if s.board 0 i = s.board 1 i ∧ s.board 0 i = s.board 2 i ∧ s.board 0 i = s.client_char then
    some CLIENT_WINS
  else none

/-- Function `ttt_status`: the loop over rows and columns, the two diagonals, then the
scan for an empty cell. -/
def ttt_status (s : Server) : Int :=
  match indices.findSome? (statusLoopBody s) with
  | some r => r
  | none =>
    if s.board 0 0 = s.board 1 1 ∧ s.board 0 0 = s.board 2 2 ∧ s.board 0 0 = s.server_char then
      SERVER_WINS
    else if s.board 0 0 = s.board 1 1 ∧ s.board 0 0 = s.board 2 2 ∧ s.board 0 0 = s.client_char then
      CLIENT_WINS
    else if s.board 2 0 = s.board 1 1 ∧ s.board 2 0 = s.board 0 2 ∧ s.board 2 0 = s.server_char then
      SERVER_WINS
    else if s.board 2 0 = s.board 1 1 ∧ s.board 2 0 = s.board 0 2 ∧ s.board 2 0 = s.client_char then
      CLIENT_WINS
    else if indices.any (fun i => indices.any (fun j => decide (s.board i j = EMPTY_CELL))) then
      STATUS_OK
    else TIED

/-- The nested loops of `counterAttack` up to their `if`: the counters `(i, j)`
at which the test `_board[i][j] == EMPTY_CELL` first succeeds, if it ever does. -/
def firstEmptyCell (b : Board) : Option (Fin 3 × Fin 3) :=
  indices.findSome? (fun i => indices.findSome? (fun j =>
    if b i j = EMPTY_CELL then some (i, j) else none))

/-- Function `counterAttack`: scan the cells in row-major order; at the first one equal
to `EMPTY_CELL` write the server's mark, store its position in `new_move` and
return. When the scan finds nothing the function falls off its end. -/
def counterAttack (s : Server) (new_move : Move) : Server × Move :=
  match firstEmptyCell s.board with
  | some (i, j) =>
    ({ s with board := s.board.set i j s.server_char },
     { new_move with row := (i : Nat), col := (j : Nat) })
  | none => (s, new_move)

/-- Function `ttt_play`: validate the client's move and place it, compute the status,
counter-attack when the game goes on, clear the board on a terminal status.
Returns the globals and `*server_mv` after the call. -/
def ttt_play (s : Server) (client_mv server_mv : Move) : Server × Move :=
  let r := validMove s client_mv
  let server_mv := { server_mv with status := r.1 }
  let s := r.2
  if h : r.1 = STATUS_OK then
    have hb : 0 ≤ client_mv.row ∧ BOARD_SIZE > client_mv.row ∧
        0 ≤ client_mv.col ∧ BOARD_SIZE > client_mv.col := by
      by_contra hn
      simp [r, validMove, hn, STATUS_OK, INVALID_MOVE] at h
    let i := subscript client_mv.row hb.1 hb.2.1
    let j := subscript client_mv.col hb.2.2.1 hb.2.2.2
    let s := { s with board := s.board.set i j s.client_char }
    let server_mv := { server_mv with status := ttt_status s }
    let (s, server_mv) :=
      if server_mv.status = STATUS_OK then
        let (s, server_mv) := counterAttack s server_mv
        (s, { server_mv with status := ttt_status s })
      else (s, server_mv)
    if server_mv.status = TIED ∨ server_mv.status = CLIENT_WINS ∨ server_mv.status = SERVER_WINS then
      (clear_board s, server_mv)
    else (s, server_mv)
  else (s, server_mv)

/-- The values of the globals after each statement of `ttt_play` that assigns to
`_board`, in the order of execution: the placement of the client's mark, the
counter-attack, the clearing of the board. The conditions are those of
`ttt_play`. -/
def ttt_play_steps (s : Server) (client_mv server_mv : Move) : List Server :=
  let r := validMove s client_mv
  let server_mv := { server_mv with status := r.1 }
  let s := r.2
  if h : r.1 = STATUS_OK then
    have hb : 0 ≤ client_mv.row ∧ BOARD_SIZE > client_mv.row ∧
        0 ≤ client_mv.col ∧ BOARD_SIZE > client_mv.col := by
      by_contra hn
      simp [r, validMove, hn, STATUS_OK, INVALID_MOVE] at h
    let i := subscript client_mv.row hb.1 hb.2.1
    let j := subscript client_mv.col hb.2.2.1 hb.2.2.2
    let s1 := { s with board := s.board.set i j s.client_char }
    let server_mv := { server_mv with status := ttt_status s1 }
    if server_mv.status = STATUS_OK then
      let s2 := (counterAttack s1 server_mv).1
      let server_mv := { (counterAttack s1 server_mv).2 with status := ttt_status s2 }
      if server_mv.status = TIED ∨ server_mv.status = CLIENT_WINS ∨
          server_mv.status = SERVER_WINS then
        [s1, s2, clear_board s2]
      else [s1, s2]
    else if server_mv.status = TIED ∨ server_mv.status = CLIENT_WINS ∨
        server_mv.status = SERVER_WINS then
      [s1, clear_board s1]
    else [s1]
  else []

/-- The session loop of `main` without its input and output: every move request
read from the client is passed to `ttt_play`; the globals and the local
`servers_move` persist from one request to the next. -/
def serve (s : Server) (servers_move : Move) : List Move → Server × Move
  | [] => (s, servers_move)
  | clients_move :: rest =>
    serve (ttt_play s clients_move servers_move).1 (ttt_play s clients_move servers_move).2 rest

/-! ## The game logic of `tttclient.c` -/

/-- The key codes `KEY_DOWN`, `KEY_UP`, `KEY_RIGHT`, `KEY_LEFT` of `curses.h`, a
header that is not part of the repository. -/
structure Keypad where
  KEY_DOWN : Int
  KEY_UP : Int
  KEY_RIGHT : Int
  KEY_LEFT : Int
  deriving DecidableEq, Repr

/-- The character `' '`, the select key. -/
def SPACE : Int := 32
/-- The character `'y'`. -/
def CHAR_Y : Int := 121
/-- The character `'n'`. -/
def CHAR_N : Int := 110
/-- The character `'q'`. -/
def CHAR_Q : Int := 113

/-- The globals of `tttclient.c` used by the game: the mirrored board, the
game-over flag and the two marks (`_clientChar = X_CELL`, `_serverChar = O_CELL`
at start-up). -/
structure Client where
  board : Board
  game_over_flag : Int
  clientChar : Int
  serverChar : Int

/-- The client's `clear_board`: the two nested loops assign `EMPTY_CELL` to every
cell of the mirror. -/
def Client.clear_board (c : Client) : Client :=
  { c with board :=
      indices.foldl (fun b i => indices.foldl (fun b j => b.set i j EMPTY_CELL) b) c.board }

/-- How a function that reads keys with `getch` ends: it returns a value and
leaves the keys not yet read; or it calls `on_signal(0)`, which exits the
process; or it waits for a key that the given sequence does not contain. -/
inductive Keyed (α : Type) where
  | returned (a : α) (rest : List Int)
  | exited
  | waiting

/-- The loop `while((ch = getch()) != 'y'){ if(ch == 'n') on_signal(0); }`. -/
def continuePrompt : List Int → Keyed Unit
  | [] => Keyed.waiting
  | ch :: rest =>
    if ch ≠ CHAR_Y then
      if ch = CHAR_N then Keyed.exited else continuePrompt rest
    else Keyed.returned () rest

/-- The loop `while((ch = getch()) != ' '){ switch(ch){ ... } }` of `userTurn`,
started with the cursor at `(row, col)`: the arrow keys move the cursor with
wrap-around, `'q'` quits, every other key is ignored. -/
def cursorLoop (k : Keypad) : List Int → Int → Int → Keyed (Int × Int)
  | [], _, _ => Keyed.waiting
  | ch :: rest, row, col =>
    if ch ≠ SPACE then
      if ch = k.KEY_DOWN then
        cursorLoop k rest (if row + 1 ≥ BOARD_SIZE then 0 else row + 1) col
      else if ch = k.KEY_UP then
        cursorLoop k rest (if row - 1 < 0 then BOARD_SIZE - 1 else row - 1) col
      else if ch = k.KEY_RIGHT then
        cursorLoop k rest row (if col + 1 ≥ BOARD_SIZE then 0 else col + 1)
      else if ch = k.KEY_LEFT then
        cursorLoop k rest row (if col - 1 < 0 then BOARD_SIZE - 1 else col - 1)
      else if ch = CHAR_Q then Keyed.exited
      else cursorLoop k rest row col
    else Keyed.returned (row, col) rest

/-- The first part of `userTurn` once the user has answered `'y'`:
`clear_board(); _game_over_flag = 0;`. -/
def Client.newRound (c : Client) : Client :=
  { c.clear_board with game_over_flag := 0 }

/-- The globals at the point of `userTurn` where the cursor loop begins, when the
function gets there: a new round if the game was over, no change otherwise. -/
def Client.startTurn (c : Client) : Client :=
  if c.game_over_flag ≠ 0 then c.newRound else c

/-- Function `userTurn`: when the game is over, wait for `'y'`, clear the mirror
and reset the flag; then let the user move the cursor from `(0, 0)` and store
the selected row and column in `*mv`. Returns the globals and `*mv`. -/
def userTurn (k : Keypad) (c : Client) (keys : List Int) (mv : Move) :
    Keyed (Client × Move) :=
  let start : Keyed Client :=
    if c.game_over_flag ≠ 0 then
      match continuePrompt keys with
      | Keyed.returned _ rest => Keyed.returned c.newRound rest
      | Keyed.exited => Keyed.exited
      | Keyed.waiting => Keyed.waiting
    else Keyed.returned c keys
  match start with
  | Keyed.returned c keys =>
    match cursorLoop k keys 0 0 with
    | Keyed.returned (row, col) rest =>
      Keyed.returned (c, { mv with row := row, col := col }) rest
    | Keyed.exited => Keyed.exited
    | Keyed.waiting => Keyed.waiting
  | Keyed.exited => Keyed.exited
  | Keyed.waiting => Keyed.waiting

/-- The assignment `_board[r][c] = v` of the client, whose subscripts are not
tested beforehand: undefined (`none`) when a subscript lies outside the array. -/
def Client.write (c : Client) (r col : Int) (v : Int) : Option Client :=
  if h : 0 ≤ r ∧ BOARD_SIZE > r ∧ 0 ≤ col ∧ BOARD_SIZE > col then
    some { c with board := c.board.set (subscript r h.1 h.2.1) (subscript col h.2.2.1 h.2.2.2) v }
  else none

/-- The two assignments shared by four cases of `processServerResponse`:
`_board[mv->row][mv->col] = _serverChar; _board[my_mv->row][my_mv->col] = _clientChar;`. -/
def Client.writeBoth (c : Client) (mv my_mv : Move) : Option Client :=
  match c.write mv.row mv.col c.serverChar with
  | some c1 => c1.write my_mv.row my_mv.col c1.clientChar
  | none => none

/-- Function `processServerResponse`: the `switch` on the status of the server's
response `mv` to the client's move `my_mv`. -/
def processServerResponse (c : Client) (mv my_mv : Move) : Option Client :=
  if mv.status = STATUS_OK then c.writeBoth mv my_mv
  else if mv.status = INVALID_MOVE then some c
  else if mv.status = CLIENT_WINS then
    Client.writeBoth { c with game_over_flag := 1 } mv my_mv
  else if mv.status = SERVER_WINS then
    Client.writeBoth { c with game_over_flag := 1 } mv my_mv
  else if mv.status = TIED then
    Client.writeBoth { c with game_over_flag := 1 } mv my_mv
  else some c

/-! ## Client and server together -/

/-- One round trip between the two processes: the client, about to send, writes
`clients_move` to its FIFO; the server passes it to `ttt_play` and writes
`servers_move` back; the client applies the answer with
`processServerResponse`. The result is `none` when the client subscripts its
board out of bounds. -/
def exchange (c : Client) (s : Server) (servers_move clients_move : Move) :
    Option (Client × Server × Move) :=
  match processServerResponse c (ttt_play s clients_move servers_move).2 clients_move with
  | some c' =>
    some (c', (ttt_play s clients_move servers_move).1, (ttt_play s clients_move servers_move).2)
  | none => none

/-- The two processes over a sequence of moves selected by the user: every turn
begins as `userTurn` begins it (the mirror is cleared when the game was over),
then the move makes its round trip. The result is the state in which the client
is about to send its next move. -/
def mirrorPlay (c : Client) (s : Server) (servers_move : Move) :
    List Move → Option (Client × Server × Move)
  | [] => some (c.startTurn, s, servers_move)
  | clients_move :: rest =>
    match exchange c.startTurn s servers_move clients_move with
    | some (c', s', servers_move') => mirrorPlay c' s' servers_move' rest
    | none => none

/-- The client's globals when `main` reaches its loop: the flag is 0, the marks
are `X` and `O`, the mirror has been cleared. -/
def clientStart (b : Board) : Client :=
  Client.clear_board ⟨b, 0, X_CELL, O_CELL⟩

/-- The server's globals after `init_new_game` with the handshake the client
sends: the marks `X` and `O`. -/
def serverStart (s : Server) : Server :=
  init_new_game s ⟨X_CELL, O_CELL⟩

/-! ## The reply-channel retry loop of `main` -/

/-- Macro `#define MAXTRIES 5` -/
def MAXTRIES : Nat := 5

/-- The local `tries` of `main` together with what the loop has done so far:
the number of calls of `open` on the client's reply FIFO, the number of calls of
`sleep(1)`, and whether the last `open` succeeded (`clientreadfifo != -1`). -/
structure RetryState where
  tries : Nat
  opens : Nat
  sleeps : Nat
  opened : Bool
  deriving DecidableEq, Repr

/-- The loop
`while (((clientreadfifo = open(..)) == -1) && (tries < MAXTRIES)) { sleep(1); tries++; }`
where `outcome n` tells whether the `n`-th call of `open` (counted from 0)
succeeds. Every evaluation of the loop condition spends one unit of fuel. -/
def retryLoop (outcome : Nat → Bool) : Nat → RetryState → Option RetryState
  | 0, _ => none
  | fuel + 1, st =>
    let opened := outcome st.opens
    let st := { st with opens := st.opens + 1, opened := opened }
    if opened = false ∧ st.tries < MAXTRIES then
      retryLoop outcome fuel { st with sleeps := st.sleeps + 1, tries := st.tries + 1 }
    else some st

/-- What the session does with a move request once the retry loop is over. -/
inductive Handling where
  /-- The call `exit(1)`: the session ends without calling `ttt_play`. -/
  | gaveUp
  /-- The calls `ttt_play(&clients_move, &servers_move)` and `write`. -/
  | played
  deriving DecidableEq, Repr

/-- The handling of one move request in `main`: `tries = 0`, the retry loop,
then `if (tries == MAXTRIES) exit(1);` and otherwise `ttt_play` and `write`. -/
def handleRequest (outcome : Nat → Bool) (fuel : Nat) : Option (Handling × RetryState) :=
  match retryLoop outcome fuel ⟨0, 0, 0, false⟩ with
  | none => none
  | some st => if st.tries = MAXTRIES then some (Handling.gaveUp, st) else some (Handling.played, st)

/-- The reply FIFO cannot be opened on the initial attempt nor on the first four
retries, and the fifth retry opens it. -/
def lastRetryOpens : Nat → Bool := fun n => decide (n = 5)

/-! ## Specification vocabulary -/

/-- Some row, column or diagonal of `b` is uniformly the mark `m`. -/
def HasLine (b : Board) (m : Int) : Prop :=
  (∃ i, ∀ j, b i j = m) ∨ (∃ j, ∀ i, b i j = m) ∨ (∀ i, b i i = m) ∨ (∀ i, b i i.rev = m)

instance (b : Board) (m : Int) : Decidable (HasLine b m) := by
  unfold HasLine
  infer_instance

/-- Some cell of `b` is `EMPTY_CELL`. -/
def HasEmpty (b : Board) : Prop := ∃ i j, b i j = EMPTY_CELL

instance (b : Board) : Decidable (HasEmpty b) := by
  unfold HasEmpty
  infer_instance

/-- The cell `(i, j)` is the first `EMPTY_CELL` of `b` in row-major order: it is
empty and no cell of an earlier row, or earlier in the same row, is. -/
def IsFirstEmpty (b : Board) (i j : Fin 3) : Prop :=
  b i j = EMPTY_CELL ∧ ∀ i' j', (i' < i ∨ (i' = i ∧ j' < j)) → b i' j' ≠ EMPTY_CELL

instance (b : Board) (i j : Fin 3) : Decidable (IsFirstEmpty b i j) := by
  unfold IsFirstEmpty
  infer_instance

/-- Every cell of `b` is `EMPTY_CELL`. -/
def AllEmpty (b : Board) : Prop := ∀ i j, b i j = EMPTY_CELL

instance (b : Board) : Decidable (AllEmpty b) := by
  unfold AllEmpty
  infer_instance

/-- Every cell of `b` is `EMPTY_CELL`, the client's mark or the server's mark. -/
def CellsValid (s : Server) : Prop :=
  ∀ i j, s.board i j = EMPTY_CELL ∨ s.board i j = s.client_char ∨ s.board i j = s.server_char

instance (s : Server) : Decidable (CellsValid s) := by
  unfold CellsValid
  infer_instance

/-- The two marks are distinct and neither is `EMPTY_CELL`. -/
def MarksValid (s : Server) : Prop :=
  s.client_char ≠ s.server_char ∧ s.client_char ≠ EMPTY_CELL ∧ s.server_char ≠ EMPTY_CELL

instance (s : Server) : Decidable (MarksValid s) := by
  unfold MarksValid
  infer_instance

/-- What holds of the two processes between two round trips: the marks are `X`
and `O` on both sides, the server's position has status `STATUS_OK`, the mirror
is the server's board unless the game-over flag is set, in which case the
server's board is clear; and the row and column of the server's `servers_move`
lie in `[0, 3)` unless the server's board is clear. -/
def Synced (c : Client) (s : Server) (servers_move : Move) : Prop :=
  c.clientChar = X_CELL ∧ c.serverChar = O_CELL ∧
  s.client_char = X_CELL ∧ s.server_char = O_CELL ∧
  ttt_status s = STATUS_OK ∧
  ((c.game_over_flag = 0 ∧ c.board = s.board) ∨
    (c.game_over_flag ≠ 0 ∧ AllEmpty s.board)) ∧
  (AllEmpty s.board ∨
    (0 ≤ servers_move.row ∧ servers_move.row < 3 ∧
      0 ≤ servers_move.col ∧ servers_move.col < 3))

/-- The line `l` is uniformly the mark `m`. -/
def LineIs (l : Int × Int × Int) (m : Int) : Prop :=
  l.1 = m ∧ l.2.1 = m ∧ l.2.2 = m

instance (l : Int × Int × Int) (m : Int) : Decidable (LineIs l m) := by
  unfold LineIs
  infer_instance

/-- Where one key press takes the cursor from `p`: the arrow keys move it one
cell down, up, right or left, from the last row or column round to the first
and back; any other key leaves it where it is. -/
def moveCursor (k : Keypad) (p : Int × Int) (ch : Int) : Int × Int :=
  if ch = k.KEY_DOWN then ((p.1 + 1) % 3, p.2)
  else if ch = k.KEY_UP then ((p.1 + 2) % 3, p.2)
  else if ch = k.KEY_RIGHT then (p.1, (p.2 + 1) % 3)
  else if ch = k.KEY_LEFT then (p.1, (p.2 + 2) % 3)
  else p

/-- The cell under the cursor after the key presses `nav`, the cursor starting
in the top left corner. -/
def cursorAfter (k : Keypad) (nav : List Int) : Int × Int :=
  nav.foldl (moveCursor k) (0, 0)

/-- The board given by its three rows (cells beyond a short row read 0). -/
def ofRows (r0 r1 r2 : List Int) : Board := fun i j => ([r0, r1, r2].getD i []).getD j 0

/-- The cells of row `i`, left to right. -/
def row (b : Board) (i : Fin 3) : Int × Int × Int := (b i 0, b i 1, b i 2)

/-- The cells of column `i`, top to bottom. -/
def column (b : Board) (i : Fin 3) : Int × Int × Int := (b 0 i, b 1 i, b 2 i)

/-- The cells of the main diagonal, from the top left corner. -/
def diagonal (b : Board) : Int × Int × Int := (b 0 0, b 1 1, b 2 2)

/-- The cells of the other diagonal, from the bottom left corner. -/
def antidiagonal (b : Board) : Int × Int × Int := (b 2 0, b 1 1, b 0 2)

/-- The two tests that `ttt_status` applies to a line with cells `l`, in the form
the source writes them: first cell equal to the second, to the third and to the
server's mark gives `SERVER_WINS`; else the same with the client's mark gives
`CLIENT_WINS`. -/
def lineTest (s : Server) (l : Int × Int × Int) : Option Int :=
  if l.1 = l.2.1 ∧ l.1 = l.2.2 ∧ l.1 = s.server_char then some SERVER_WINS
  else if l.1 = l.2.1 ∧ l.1 = l.2.2 ∧ l.1 = s.client_char then some CLIENT_WINS
  else none

/-- The lines in the order in which `ttt_status` reaches them: row `i` and
then column `i` for `i = 0, 1, 2`, then the two diagonals. -/
def sourceOrder (b : Board) : List (Int × Int × Int) :=
  [row b 0, column b 0, row b 1, column b 1, row b 2, column b 2, diagonal b, antidiagonal b]

/-- The lines in the specified order: rows before columns before diagonals. -/
def referenceOrder (b : Board) : List (Int × Int × Int) :=
  [row b 0, row b 1, row b 2, column b 0, column b 1, column b 2, diagonal b, antidiagonal b]

/-- The line test in the words of the specification: a line all of whose cells
are the server's mark is a server win; otherwise a line all of whose cells are the
client's mark is a client win. (Cells that match a mark other than `EMPTY_CELL`
are non-empty; no separate test of emptiness is made.) -/
def referenceLineTest (s : Server) (l : Int × Int × Int) : Option Int :=
  if l.1 = s.server_char ∧ l.2.1 = s.server_char ∧ l.2.2 = s.server_char then some SERVER_WINS
  else if l.1 = s.client_char ∧ l.2.1 = s.client_char ∧ l.2.2 = s.client_char then
    some CLIENT_WINS
  else none

/-- The status as the specification words it: the first satisfied line in the
order rows, columns, diagonals decides the winner (server before client on
each line); when no line is satisfied the result is `STATUS_OK` if an
`EMPTY_CELL` remains and `TIED` otherwise. -/
def ttt_status_reference (s : Server) : Int :=
  match (referenceOrder s.board).findSome? (referenceLineTest s) with
  | some r => r
  | none => if HasEmpty s.board then STATUS_OK else TIED

/-- The globals once the client's mark is written at `(i, j)`. -/
def placeClient (s : Server) (i j : Fin 3) : Server :=
  { s with board := s.board.set i j s.client_char }

/-- The globals once the server's mark is written at `(i, j)`. -/
def placeServer (s : Server) (i j : Fin 3) : Server :=
  { s with board := s.board.set i j s.server_char }

/-- The part of `ttt_play` that follows the placement of the client's mark: the
status, the counter-attack when it is `STATUS_OK`, the clearing of the board
on a terminal status. -/
def resolveRound (s : Server) (server_mv : Move) : Server × Move :=
  let server_mv := { server_mv with status := ttt_status s }
  let (s, server_mv) :=
    if server_mv.status = STATUS_OK then
      let (s, server_mv) := counterAttack s server_mv
      (s, { server_mv with status := ttt_status s })
    else (s, server_mv)
  if server_mv.status = TIED ∨ server_mv.status = CLIENT_WINS ∨ server_mv.status = SERVER_WINS then
    (clear_board s, server_mv)
  else (s, server_mv)

/-- The part of `ttt_play_steps` that follows the placement of the client's mark. -/
def resolveSteps (s1 : Server) (server_mv : Move) : List Server :=
  let server_mv := { server_mv with status := ttt_status s1 }
  if server_mv.status = STATUS_OK then
    let s2 := (counterAttack s1 server_mv).1
    let server_mv := { (counterAttack s1 server_mv).2 with status := ttt_status s2 }
    if server_mv.status = TIED ∨ server_mv.status = CLIENT_WINS ∨
        server_mv.status = SERVER_WINS then
      [s1, s2, clear_board s2]
    else [s1, s2]
  else if server_mv.status = TIED ∨ server_mv.status = CLIENT_WINS ∨
      server_mv.status = SERVER_WINS then
    [s1, clear_board s1]
  else [s1]

/-- A position with marks `X` (client) and `O` (server) in which the top row is
uniformly the client's mark and the middle row uniformly the server's mark. -/
def bothLines : Server :=
  ⟨ofRows [X_CELL, X_CELL, X_CELL] [O_CELL, O_CELL, O_CELL] [EMPTY_CELL, EMPTY_CELL, EMPTY_CELL],
    O_CELL, X_CELL⟩

/-- A position with one mark of the client in the top left corner. -/
def cornerTaken : Server :=
  ⟨ofRows [X_CELL, EMPTY_CELL, EMPTY_CELL] [EMPTY_CELL, EMPTY_CELL, EMPTY_CELL]
    [EMPTY_CELL, EMPTY_CELL, EMPTY_CELL], O_CELL, X_CELL⟩

/-- A position with a single `EMPTY_CELL`, the bottom right corner, in which the
client's mark there completes no line. -/
def lastCell : Server :=
  ⟨ofRows [X_CELL, O_CELL, X_CELL] [X_CELL, O_CELL, O_CELL] [O_CELL, X_CELL, EMPTY_CELL],
    O_CELL, X_CELL⟩

/-- The position of Scenario C: the client holds two cells of the top row, the
server two cells of the middle row. -/
def scenarioC : Server :=
  ⟨ofRows [X_CELL, X_CELL, EMPTY_CELL] [O_CELL, O_CELL, EMPTY_CELL]
    [EMPTY_CELL, EMPTY_CELL, EMPTY_CELL], O_CELL, X_CELL⟩

/-- The position at the start of a game: every cell `EMPTY_CELL`, the client
playing `X` and the server `O`. -/
def newGame : Server := ⟨fun _ _ => EMPTY_CELL, O_CELL, X_CELL⟩

/-- The key codes of the arrow keys in the ncurses implementation of `curses.h`. -/
def curses : Keypad := ⟨258, 259, 261, 260⟩

/-- The client's mirror after a first exchange: its `X` in the centre and the
server's `O` in the top left corner; the game goes on. -/
def afterFirstExchange : Client :=
  ⟨ofRows [O_CELL, EMPTY_CELL, EMPTY_CELL] [EMPTY_CELL, X_CELL, EMPTY_CELL]
    [EMPTY_CELL, EMPTY_CELL, EMPTY_CELL], 0, X_CELL, O_CELL⟩

/-! ## Auxiliary lemmas -/

theorem forall_fin3 {P : Fin 3 → Prop} : (∀ i, P i) ↔ P 0 ∧ P 1 ∧ P 2 :=
  ⟨fun h => ⟨h 0, h 1, h 2⟩, fun h i => by
    fin_cases i
    · exact h.1
    · exact h.2.1
    · exact h.2.2⟩

theorem exists_fin3 {P : Fin 3 → Prop} : (∃ i, P i) ↔ P 0 ∨ P 1 ∨ P 2 := by
  constructor
  · rintro ⟨i, hi⟩
    fin_cases i
    · exact Or.inl hi
    · exact Or.inr (Or.inl hi)
    · exact Or.inr (Or.inr hi)
  · rintro (h | h | h)
    · exact ⟨0, h⟩
    · exact ⟨1, h⟩
    · exact ⟨2, h⟩

theorem validMove_snd (s : Server) (mv : Move) : (validMove s mv).2 = s := by
  unfold validMove
  split_ifs <;> rfl

theorem findSome?_cons_or {α β : Type} (f : α → Option β) (a : α) (l : List α) :
    (a :: l).findSome? f = (f a).or (l.findSome? f) := by
  rw [List.findSome?_cons]
  cases f a <;> rfl

theorem statusLoopBody_eq (s : Server) (i : Fin 3) :
    statusLoopBody s i = (lineTest s (row s.board i)).or (lineTest s (column s.board i)) := by
  unfold statusLoopBody lineTest row column
  dsimp only
  split_ifs <;> rfl

theorem emptyScan_iff (b : Board) :
    indices.any (fun i => indices.any (fun j => decide (b i j = EMPTY_CELL))) = true ↔
      HasEmpty b := by
  simp only [indices, List.any_cons, List.any_nil, Bool.or_false, Bool.or_eq_true,
    decide_eq_true_eq, HasEmpty, exists_fin3]

/-- Function `ttt_status` as the first satisfied line of `sourceOrder`. -/
theorem ttt_status_eq (s : Server) :
    ttt_status s = match (sourceOrder s.board).findSome? (lineTest s) with
      | some r => r
      | none => if HasEmpty s.board then STATUS_OK else TIED := by
  unfold ttt_status
  simp only [emptyScan_iff]
  simp only [sourceOrder, indices, findSome?_cons_or, List.findSome?_nil,
    statusLoopBody_eq, Option.or_none]
  cases lineTest s (row s.board 0) <;> cases lineTest s (column s.board 0) <;>
  cases lineTest s (row s.board 1) <;> cases lineTest s (column s.board 1) <;>
  cases lineTest s (row s.board 2) <;> cases lineTest s (column s.board 2) <;>
  simp only [Option.or]
  simp only [lineTest, diagonal, antidiagonal]
  split_ifs <;> rfl



theorem lineTest_cases (s : Server) (l : Int × Int × Int) :
    (lineTest s l = some SERVER_WINS ∧
      l.1 = s.server_char ∧ l.2.1 = s.server_char ∧ l.2.2 = s.server_char) ∨
    (lineTest s l = some CLIENT_WINS ∧
      l.1 = s.client_char ∧ l.2.1 = s.client_char ∧ l.2.2 = s.client_char) ∨
    (lineTest s l = none ∧
      ¬ (l.1 = s.server_char ∧ l.2.1 = s.server_char ∧ l.2.2 = s.server_char) ∧
      ¬ (l.1 = s.client_char ∧ l.2.1 = s.client_char ∧ l.2.2 = s.client_char)) := by
  unfold lineTest
  split_ifs with h1 h2
  · left
    exact ⟨rfl, by omega, by omega, by omega⟩
  · right; left
    exact ⟨rfl, by omega, by omega, by omega⟩
  · right; right
    refine ⟨rfl, fun h => h1 ?_, fun h => h2 ?_⟩
    · exact ⟨by omega, by omega, by omega⟩
    · exact ⟨by omega, by omega, by omega⟩

theorem hasLine_iff_mem (b : Board) (m : Int) :
    HasLine b m ↔ ∃ l ∈ sourceOrder b, l.1 = m ∧ l.2.1 = m ∧ l.2.2 = m := by
  simp only [HasLine, forall_fin3, exists_fin3, sourceOrder, List.mem_cons, List.mem_singleton,
    List.not_mem_nil, or_false, exists_eq_or_imp, exists_eq_left, row, column, diagonal,
    antidiagonal]
  have e0 : (0 : Fin 3).rev = 2 := rfl
  have e1 : (1 : Fin 3).rev = 1 := rfl
  have e2 : (2 : Fin 3).rev = 0 := rfl
  rw [e0, e1, e2]
  constructor
  · rintro ((h | h | h) | (h | h | h) | h | h)
    · exact Or.inl h
    · exact Or.inr (Or.inr (Or.inl h))
    · exact Or.inr (Or.inr (Or.inr (Or.inr (Or.inl h))))
    · exact Or.inr (Or.inl h)
    · exact Or.inr (Or.inr (Or.inr (Or.inl h)))
    · exact Or.inr (Or.inr (Or.inr (Or.inr (Or.inr (Or.inl h)))))
    · exact Or.inr (Or.inr (Or.inr (Or.inr (Or.inr (Or.inr (Or.inl h))))))
    · exact Or.inr (Or.inr (Or.inr (Or.inr (Or.inr (Or.inr (Or.inr ⟨h.2.2, h.2.1, h.1⟩))))))
  · rintro (h | h | h | h | h | h | h | h)
    · exact Or.inl (Or.inl h)
    · exact Or.inr (Or.inl (Or.inl h))
    · exact Or.inl (Or.inr (Or.inl h))
    · exact Or.inr (Or.inl (Or.inr (Or.inl h)))
    · exact Or.inl (Or.inr (Or.inr h))
    · exact Or.inr (Or.inl (Or.inr (Or.inr h)))
    · exact Or.inr (Or.inr (Or.inl h))
    · exact Or.inr (Or.inr (Or.inr ⟨h.2.2, h.2.1, h.1⟩))

/-- The four possible results of `ttt_status` and what each says of the board. -/
theorem ttt_status_cases (s : Server) :
    (ttt_status s = SERVER_WINS ∧ HasLine s.board s.server_char) ∨
    (ttt_status s = CLIENT_WINS ∧ HasLine s.board s.client_char) ∨
    (ttt_status s = STATUS_OK ∧ ¬ HasLine s.board s.server_char ∧
      ¬ HasLine s.board s.client_char ∧ HasEmpty s.board) ∨
    (ttt_status s = TIED ∧ ¬ HasLine s.board s.server_char ∧
      ¬ HasLine s.board s.client_char ∧ ¬ HasEmpty s.board) := by
  rw [ttt_status_eq]
  cases h : (sourceOrder s.board).findSome? (lineTest s) with
  | none =>
    rw [List.findSome?_eq_none_iff] at h
    have hs : ¬ HasLine s.board s.server_char := by
      rw [hasLine_iff_mem]
      rintro ⟨l, hl, hu⟩
      rcases lineTest_cases s l with h1 | h1 | h1
      · rw [h l hl] at h1
        exact absurd h1.1 (by simp)
      · rw [h l hl] at h1
        exact absurd h1.1 (by simp)
      · exact h1.2.1 hu
    have hc : ¬ HasLine s.board s.client_char := by
      rw [hasLine_iff_mem]
      rintro ⟨l, hl, hu⟩
      rcases lineTest_cases s l with h1 | h1 | h1
      · rw [h l hl] at h1
        exact absurd h1.1 (by simp)
      · rw [h l hl] at h1
        exact absurd h1.1 (by simp)
      · exact h1.2.2 hu
    by_cases he : HasEmpty s.board
    · right; right; left
      exact ⟨by simp [he], hs, hc, he⟩
    · right; right; right
      exact ⟨by simp [he], hs, hc, he⟩
  | some r =>
    obtain ⟨l, hl, hr⟩ := List.exists_of_findSome?_eq_some h
    rcases lineTest_cases s l with h1 | h1 | h1
    · left
      rw [h1.1] at hr
      exact ⟨(Option.some.inj hr).symm, (hasLine_iff_mem _ _).2 ⟨l, hl, h1.2⟩⟩
    · right; left
      rw [h1.1] at hr
      exact ⟨(Option.some.inj hr).symm, (hasLine_iff_mem _ _).2 ⟨l, hl, h1.2⟩⟩
    · rw [h1.1] at hr
      exact absurd hr (by simp)

theorem firstEmptyCell_spec (b : Board) :
    (∃ i j, firstEmptyCell b = some (i, j) ∧ IsFirstEmpty b i j) ∨
    (firstEmptyCell b = none ∧ ¬ HasEmpty b) := by
  unfold firstEmptyCell
  simp only [indices, findSome?_cons_or, List.findSome?_nil, Option.or_none]
  by_cases h00 : b 0 0 = EMPTY_CELL
  · left
    refine ⟨0, 0, by simp [*], ?_⟩
    simp only [IsFirstEmpty, forall_fin3]
    simp [*]
  by_cases h01 : b 0 1 = EMPTY_CELL
  · left
    refine ⟨0, 1, by simp [*], ?_⟩
    simp only [IsFirstEmpty, forall_fin3]
    simp [*]
  by_cases h02 : b 0 2 = EMPTY_CELL
  · left
    refine ⟨0, 2, by simp [*], ?_⟩
    simp only [IsFirstEmpty, forall_fin3]
    simp [*]
  by_cases h10 : b 1 0 = EMPTY_CELL
  · left
    refine ⟨1, 0, by simp [*], ?_⟩
    simp only [IsFirstEmpty, forall_fin3]
    simp [*]
  by_cases h11 : b 1 1 = EMPTY_CELL
  · left
    refine ⟨1, 1, by simp [*], ?_⟩
    simp only [IsFirstEmpty, forall_fin3]
    simp [*]
  by_cases h12 : b 1 2 = EMPTY_CELL
  · left
    refine ⟨1, 2, by simp [*], ?_⟩
    simp only [IsFirstEmpty, forall_fin3]
    simp [*]
  by_cases h20 : b 2 0 = EMPTY_CELL
  · left
    refine ⟨2, 0, by simp [*], ?_⟩
    simp only [IsFirstEmpty, forall_fin3]
    simp [*]
  by_cases h21 : b 2 1 = EMPTY_CELL
  · left
    refine ⟨2, 1, by simp [*], ?_⟩
    simp only [IsFirstEmpty, forall_fin3]
    simp [*]
  by_cases h22 : b 2 2 = EMPTY_CELL
  · left
    refine ⟨2, 2, by simp [*], ?_⟩
    simp only [IsFirstEmpty, forall_fin3]
    simp [*]
  right
  simp only [HasEmpty, exists_fin3]
  simp [*]

theorem validMove_fst_ok_iff (s : Server) (mv : Move) :
    (validMove s mv).1 = STATUS_OK ↔
      (0 ≤ mv.row ∧ mv.row < 3 ∧ 0 ≤ mv.col ∧ mv.col < 3 ∧
        ∃ i j : Fin 3, ((i : Nat) : Int) = mv.row ∧ ((j : Nat) : Int) = mv.col ∧
          s.board i j = EMPTY_CELL) := by
  unfold validMove
  by_cases h : 0 ≤ mv.row ∧ BOARD_SIZE > mv.row ∧ 0 ≤ mv.col ∧ BOARD_SIZE > mv.col
  · have h3 : mv.row < 3 ∧ mv.col < 3 := by
      have := h.2.1
      have := h.2.2.2
      unfold BOARD_SIZE at *
      omega
    rw [dif_pos h]
    by_cases hc : s.board (subscript mv.row h.1 h.2.1) (subscript mv.col h.2.2.1 h.2.2.2)
        = EMPTY_CELL
    · rw [if_pos hc]
      refine ⟨fun _ => ⟨h.1, h3.1, h.2.2.1, h3.2, subscript mv.row h.1 h.2.1,
        subscript mv.col h.2.2.1 h.2.2.2, ?_, ?_, hc⟩, fun _ => rfl⟩
      · simp [subscript, h.1]
      · simp [subscript, h.2.2.1]
    · rw [if_neg hc]
      constructor
      · intro hst
        simp [STATUS_OK, INVALID_MOVE] at hst
      · rintro ⟨_, _, _, _, i, j, hi, hj, he⟩
        exfalso
        apply hc
        have e1 : subscript mv.row h.1 h.2.1 = i := by
          apply Fin.ext
          simp only [subscript]
          omega
        have e2 : subscript mv.col h.2.2.1 h.2.2.2 = j := by
          apply Fin.ext
          simp only [subscript]
          omega
        rw [e1, e2]
        exact he
  · rw [dif_neg h]
    constructor
    · intro hst
      simp [STATUS_OK, INVALID_MOVE] at hst
    · rintro ⟨h0, h1, h2, h3, _⟩
      exfalso
      apply h
      unfold BOARD_SIZE
      exact ⟨h0, h1, h2, h3⟩

theorem subscript_eq (x : Int) (h0 : 0 ≤ x) (h1 : BOARD_SIZE > x) (i : Fin 3)
    (hi : ((i : Nat) : Int) = x) : subscript x h0 h1 = i := by
  apply Fin.ext
  simp only [subscript]
  omega

theorem validMove_ok (s : Server) (mv : Move) (i j : Fin 3) (hi : ((i : Nat) : Int) = mv.row)
    (hj : ((j : Nat) : Int) = mv.col) (he : s.board i j = EMPTY_CELL) :
    validMove s mv = (STATUS_OK, s) := by
  have hb : 0 ≤ mv.row ∧ BOARD_SIZE > mv.row ∧ 0 ≤ mv.col ∧ BOARD_SIZE > mv.col := by
    unfold BOARD_SIZE
    omega
  unfold validMove
  rw [dif_pos hb, subscript_eq _ _ _ i hi, subscript_eq _ _ _ j hj, if_pos he]

theorem validMove_fst_cases (s : Server) (mv : Move) :
    (validMove s mv).1 = STATUS_OK ∨ (validMove s mv).1 = INVALID_MOVE := by
  unfold validMove
  split_ifs
  · exact Or.inl rfl
  · exact Or.inr rfl
  · exact Or.inr rfl

theorem ttt_play_invalid_eq (s : Server) (client_mv server_mv : Move)
    (h : (validMove s client_mv).1 ≠ STATUS_OK) :
    ttt_play s client_mv server_mv = (s, { server_mv with status := INVALID_MOVE }) := by
  have hinv : (validMove s client_mv).1 = INVALID_MOVE := by
    rcases validMove_fst_cases s client_mv with h1 | h1
    · exact absurd h1 h
    · exact h1
  unfold ttt_play
  dsimp only
  rw [dif_neg h, validMove_snd, hinv]

theorem ttt_play_valid_eq (s : Server) (client_mv server_mv : Move) (i j : Fin 3)
    (hi : ((i : Nat) : Int) = client_mv.row) (hj : ((j : Nat) : Int) = client_mv.col)
    (he : s.board i j = EMPTY_CELL) :
    ttt_play s client_mv server_mv = resolveRound (placeClient s i j) server_mv := by
  have hv := validMove_ok s client_mv i j hi hj he
  have h1 : (validMove s client_mv).1 = STATUS_OK := by rw [hv]
  unfold ttt_play
  dsimp only
  rw [dif_pos h1]
  simp only [validMove_snd, subscript_eq _ _ _ i hi, subscript_eq _ _ _ j hj]
  rfl

theorem clear_board_board (s : Server) : (clear_board s).board = fun _ _ => EMPTY_CELL := by
  funext i j
  fin_cases i <;> fin_cases j <;> simp [clear_board, indices, List.foldl, Board.set]

theorem clear_board_allEmpty (s : Server) : AllEmpty (clear_board s).board := by
  intro i j
  rw [clear_board_board]

theorem counterAttack_of_first (s : Server) (mv : Move) (i j : Fin 3)
    (h : firstEmptyCell s.board = some (i, j)) :
    counterAttack s mv =
      ({ s with board := s.board.set i j s.server_char },
       { mv with row := ((i : Nat) : Int), col := ((j : Nat) : Int) }) := by
  unfold counterAttack
  rw [h]

theorem set_same (b : Board) (i j : Fin 3) (v : Int) : b.set i j v i j = v := by
  simp [Board.set]

theorem set_other (b : Board) (i j i' j' : Fin 3) (v : Int) (h : (i', j') ≠ (i, j)) :
    b.set i j v i' j' = b i' j' := by
  unfold Board.set
  rw [if_neg]
  rintro ⟨h1, h2⟩
  exact h (by rw [h1, h2])


theorem resolveRound_not_ok (s : Server) (server_mv : Move) (h : ttt_status s ≠ STATUS_OK) :
    resolveRound s server_mv = (clear_board s, { server_mv with status := ttt_status s }) := by
  have ht : ttt_status s = TIED ∨ ttt_status s = CLIENT_WINS ∨ ttt_status s = SERVER_WINS := by
    rcases ttt_status_cases s with h1 | h1 | h1 | h1
    · exact Or.inr (Or.inr h1.1)
    · exact Or.inr (Or.inl h1.1)
    · exact absurd h1.1 h
    · exact Or.inl h1.1
  unfold resolveRound
  dsimp only
  rw [if_neg h]
  dsimp only
  rw [if_pos ht]

theorem resolveRound_ok (s : Server) (server_mv : Move) (h : ttt_status s = STATUS_OK)
    (i j : Fin 3) (hf : firstEmptyCell s.board = some (i, j)) :
    resolveRound s server_mv =
      if ttt_status (placeServer s i j) = STATUS_OK then
        (placeServer s i j, ⟨STATUS_OK, ((i : Nat) : Int), ((j : Nat) : Int)⟩)
      else
        (clear_board (placeServer s i j),
          ⟨ttt_status (placeServer s i j), ((i : Nat) : Int), ((j : Nat) : Int)⟩) := by
  unfold resolveRound
  dsimp only
  rw [if_pos h, counterAttack_of_first _ _ i j hf]
  dsimp only
  by_cases h2 : ttt_status (placeServer s i j) = STATUS_OK
  · have h2' := h2
    unfold placeServer at h2'
    rw [if_pos h2, h2']
    rw [if_neg (by simp [STATUS_OK, TIED, CLIENT_WINS, SERVER_WINS])]
    rfl
  · have ht : ttt_status (placeServer s i j) = TIED ∨
        ttt_status (placeServer s i j) = CLIENT_WINS ∨
        ttt_status (placeServer s i j) = SERVER_WINS := by
      rcases ttt_status_cases (placeServer s i j) with h1 | h1 | h1 | h1
      · exact Or.inr (Or.inr h1.1)
      · exact Or.inr (Or.inl h1.1)
      · exact absurd h1.1 h2
      · exact Or.inl h1.1
    rw [if_neg h2]
    unfold placeServer at ht ⊢
    rw [if_pos ht]

theorem not_terminal_of_ok {x : Int} (h : x = STATUS_OK) :
    ¬ (x = TIED ∨ x = CLIENT_WINS ∨ x = SERVER_WINS) := by
  subst h
  simp [STATUS_OK, TIED, CLIENT_WINS, SERVER_WINS]

theorem resolveRound_terminal (s : Server) (server_mv : Move)
    (h : (resolveRound s server_mv).2.status = TIED ∨
      (resolveRound s server_mv).2.status = CLIENT_WINS ∨
      (resolveRound s server_mv).2.status = SERVER_WINS) :
    AllEmpty (resolveRound s server_mv).1.board := by
  by_cases h1 : ttt_status s = STATUS_OK
  · rcases ttt_status_cases s with c | c | c | c
    · exact absurd (c.1.symm.trans h1) (by simp [STATUS_OK, SERVER_WINS])
    · exact absurd (c.1.symm.trans h1) (by simp [STATUS_OK, CLIENT_WINS])
    · rcases firstEmptyCell_spec s.board with ⟨i, j, hf, _⟩ | ⟨_, hne⟩
      · rw [resolveRound_ok s server_mv h1 i j hf] at h ⊢
        by_cases h2 : ttt_status (placeServer s i j) = STATUS_OK
        · rw [if_pos h2] at h
          exact absurd h (not_terminal_of_ok rfl)
        · rw [if_neg h2]
          exact clear_board_allEmpty _
      · exact absurd c.2.2.2 hne
    · exact absurd (c.1.symm.trans h1) (by simp [STATUS_OK, TIED])
  · rw [resolveRound_not_ok s server_mv h1]
    exact clear_board_allEmpty _


theorem hasLine_mono (b b' : Board) (m : Int) (h : ∀ i j, b' i j = m → b i j = m)
    (hl : HasLine b' m) : HasLine b m := by
  rcases hl with ⟨i, hi⟩ | ⟨j, hj⟩ | hd | hd
  · exact Or.inl ⟨i, fun j => h _ _ (hi j)⟩
  · exact Or.inr (Or.inl ⟨j, fun i => h _ _ (hj i)⟩)
  · exact Or.inr (Or.inr (Or.inl fun i => h _ _ (hd i)))
  · exact Or.inr (Or.inr (Or.inr fun i => h _ _ (hd i)))

theorem set_eq_imp (b : Board) (i j : Fin 3) (v m : Int) (hv : v ≠ m) (i' j' : Fin 3)
    (h : b.set i j v i' j' = m) : b i' j' = m := by
  unfold Board.set at h
  split_ifs at h with hc
  · exact absurd h hv
  · exact h


theorem or_swap {α : Type} (a b r : Option α)
    (h : ∀ x y, a = some x → b = some y → x = y) :
    a.or (b.or r) = b.or (a.or r) := by
  cases a with
  | none => cases b <;> rfl
  | some x =>
    cases b with
    | none => rfl
    | some y =>
      have := h x y rfl rfl
      subst this
      rfl

theorem lineTest_row_column (s : Server) (i j : Fin 3) (x y : Int)
    (hx : lineTest s (column s.board j) = some x) (hy : lineTest s (row s.board i) = some y) :
    x = y := by
  unfold lineTest row column at *
  dsimp only at hx hy
  fin_cases i <;> fin_cases j <;> dsimp only [Fin.mk_one, Fin.zero_eta, Fin.reduceFinMk] at hx hy <;>
    split_ifs at hx hy <;> simp_all <;> omega


theorem findSome?_orders (s : Server) :
    (sourceOrder s.board).findSome? (lineTest s) =
      (referenceOrder s.board).findSome? (lineTest s) := by
  simp only [sourceOrder, referenceOrder, findSome?_cons_or]
  rw [or_swap (lineTest s (column s.board 0)) (lineTest s (row s.board 1)) _
    (fun x y hx hy => lineTest_row_column s 1 0 x y hx hy)]
  rw [or_swap (lineTest s (column s.board 1)) (lineTest s (row s.board 2)) _
    (fun x y hx hy => lineTest_row_column s 2 1 x y hx hy)]
  rw [or_swap (lineTest s (column s.board 0)) (lineTest s (row s.board 2)) _
    (fun x y hx hy => lineTest_row_column s 2 0 x y hx hy)]


theorem uniform_iff (a b c m : Int) :
    (a = b ∧ a = c ∧ a = m) ↔ (a = m ∧ b = m ∧ c = m) := by
  constructor
  · rintro ⟨h1, h2, h3⟩
    exact ⟨h3, by omega, by omega⟩
  · rintro ⟨h1, h2, h3⟩
    exact ⟨by omega, by omega, h1⟩

theorem lineTest_eq_reference (s : Server) : lineTest s = referenceLineTest s := by
  funext l
  unfold lineTest referenceLineTest
  exact if_congr (uniform_iff _ _ _ _) rfl (if_congr (uniform_iff _ _ _ _) rfl rfl)

theorem forall_lt_five (P : Nat → Prop) :
    (∀ k, k < 5 → P k) ↔ P 0 ∧ P 1 ∧ P 2 ∧ P 3 ∧ P 4 := by
  constructor
  · intro h
    exact ⟨h 0 (by omega), h 1 (by omega), h 2 (by omega), h 3 (by omega), h 4 (by omega)⟩
  · rintro ⟨h0, h1, h2, h3, h4⟩ k hk
    interval_cases k <;> assumption

theorem handleRequest_cases (outcome : Nat → Bool) :
    (outcome 0 = true ∧
      handleRequest outcome (MAXTRIES + 1) = some (Handling.played, ⟨0, 1, 0, true⟩)) ∨
    (outcome 0 = false ∧ outcome 1 = true ∧
      handleRequest outcome (MAXTRIES + 1) = some (Handling.played, ⟨1, 2, 1, true⟩)) ∨
    (outcome 0 = false ∧ outcome 1 = false ∧ outcome 2 = true ∧
      handleRequest outcome (MAXTRIES + 1) = some (Handling.played, ⟨2, 3, 2, true⟩)) ∨
    (outcome 0 = false ∧ outcome 1 = false ∧ outcome 2 = false ∧ outcome 3 = true ∧
      handleRequest outcome (MAXTRIES + 1) = some (Handling.played, ⟨3, 4, 3, true⟩)) ∨
    (outcome 0 = false ∧ outcome 1 = false ∧ outcome 2 = false ∧ outcome 3 = false ∧
      outcome 4 = true ∧
      handleRequest outcome (MAXTRIES + 1) = some (Handling.played, ⟨4, 5, 4, true⟩)) ∨
    (outcome 0 = false ∧ outcome 1 = false ∧ outcome 2 = false ∧ outcome 3 = false ∧
      outcome 4 = false ∧
      handleRequest outcome (MAXTRIES + 1) = some (Handling.gaveUp, ⟨5, 6, 5, outcome 5⟩)) := by
  cases h0 : outcome 0
  swap
  · simp [handleRequest, retryLoop, MAXTRIES, h0]
  cases h1 : outcome 1
  swap
  · simp [handleRequest, retryLoop, MAXTRIES, h0, h1]
  cases h2 : outcome 2
  swap
  · simp [handleRequest, retryLoop, MAXTRIES, h0, h1, h2]
  cases h3 : outcome 3
  swap
  · simp [handleRequest, retryLoop, MAXTRIES, h0, h1, h2, h3]
  cases h4 : outcome 4
  swap
  · simp [handleRequest, retryLoop, MAXTRIES, h0, h1, h2, h3, h4]
  simp [handleRequest, retryLoop, MAXTRIES, h0, h1, h2, h3, h4]

/-- What the retry loop does for every sequence of outcomes of `open`: with
`MAXTRIES + 1` units of fuel it terminates, having called `open` at most
`MAXTRIES + 1` times (one initial attempt and at most `MAXTRIES` retries), each
call but the last having failed, and `sleep` once before each retry; the session
gives up exactly when the first `MAXTRIES` calls of `open` all failed, whatever
the outcome of the last retry. -/
theorem handleRequest_spec (outcome : Nat → Bool) :
    ∃ h st, handleRequest outcome (MAXTRIES + 1) = some (h, st) ∧
      st.opens ≤ MAXTRIES + 1 ∧ st.sleeps + 1 = st.opens ∧ st.tries = st.sleeps ∧
      st.opened = outcome (st.opens - 1) ∧
      (∀ k, k + 1 < st.opens → outcome k = false) ∧
      (h = Handling.gaveUp ↔ ∀ k, k < MAXTRIES → outcome k = false) := by
  rcases handleRequest_cases outcome with ⟨h0, hr⟩ | ⟨h0, h1, hr⟩ | ⟨h0, h1, h2, hr⟩ |
    ⟨h0, h1, h2, h3, hr⟩ | ⟨h0, h1, h2, h3, h4, hr⟩ | ⟨h0, h1, h2, h3, h4, hr⟩
  all_goals
    refine ⟨_, _, hr, by simp [MAXTRIES], rfl, rfl, by simp [*], ?_,
      by simp [MAXTRIES, forall_lt_five, *]⟩
    intro k hk
    have hk5 : k < 5 := by
      simp only at hk
      omega
    interval_cases k <;> first | assumption | (simp only at hk; omega)


theorem cursorLoop_inRange (k : Keypad) (keys : List Int) :
    ∀ (row col r c : Int) (rest : List Int),
      0 ≤ row → row < 3 → 0 ≤ col → col < 3 →
      cursorLoop k keys row col = Keyed.returned (r, c) rest →
      0 ≤ r ∧ r < 3 ∧ 0 ≤ c ∧ c < 3 := by
  induction keys with
  | nil =>
    intro row col r c rest _ _ _ _ h
    simp [cursorLoop] at h
  | cons ch keys ih =>
    intro row col r c rest h0 h1 h2 h3 h
    unfold cursorLoop at h
    simp only [BOARD_SIZE] at h
    split_ifs at h
    all_goals first
      | (apply ih _ _ r c rest _ _ _ _ h <;> omega)
      | (cases h; exact ⟨h0, h1, h2, h3⟩)

theorem cursorLoop_total (k : Keypad) (nav rest : List Int) :
    ∀ (row col : Int), SPACE ∉ nav → CHAR_Q ∉ nav →
      ∃ r c, cursorLoop k (nav ++ SPACE :: rest) row col = Keyed.returned (r, c) rest := by
  induction nav with
  | nil =>
    intro row col _ _
    exact ⟨row, col, by simp [cursorLoop]⟩
  | cons ch nav ih =>
    intro row col hs hq
    have hs1 : ch ≠ SPACE := fun e => hs (by simp [e])
    have hq1 : ch ≠ CHAR_Q := fun e => hq (by simp [e])
    have hs2 : SPACE ∉ nav := fun e => hs (by simp [e])
    have hq2 : CHAR_Q ∉ nav := fun e => hq (by simp [e])
    rw [List.cons_append]
    unfold cursorLoop
    rw [if_pos hs1]
    split_ifs
    all_goals exact ih _ _ hs2 hq2

theorem continuePrompt_total (pre rest : List Int) (hy : CHAR_Y ∉ pre) (hn : CHAR_N ∉ pre) :
    continuePrompt (pre ++ CHAR_Y :: rest) = Keyed.returned () rest := by
  induction pre with
  | nil => simp [continuePrompt]
  | cons ch pre ih =>
    have hy1 : ch ≠ CHAR_Y := fun e => hy (by simp [e])
    have hn1 : ch ≠ CHAR_N := fun e => hn (by simp [e])
    rw [List.cons_append]
    unfold continuePrompt
    rw [if_pos hy1, if_neg hn1]
    exact ih (fun e => hy (by simp [e])) (fun e => hn (by simp [e]))


theorem client_clear_board_board (c : Client) :
    c.clear_board.board = fun _ _ => EMPTY_CELL := by
  funext i j
  fin_cases i <;> fin_cases j <;> simp [Client.clear_board, indices, List.foldl, Board.set]

theorem userTurn_returned (k : Keypad) (c : Client) (keys : List Int) (mv : Move)
    (c' : Client) (mv' : Move) (rest : List Int)
    (h : userTurn k c keys mv = Keyed.returned (c', mv') rest) :
    0 ≤ mv'.row ∧ mv'.row < 3 ∧ 0 ≤ mv'.col ∧ mv'.col < 3 ∧ mv'.status = mv.status ∧
    c' = c.startTurn := by
  unfold userTurn at h
  by_cases hf : c.game_over_flag ≠ 0
  · simp only [if_pos hf] at h
    cases hp : continuePrompt keys with
    | returned u keys' =>
      simp only [hp] at h
      cases hc : cursorLoop k keys' 0 0 with
      | returned p rest' =>
        obtain ⟨r, col⟩ := p
        simp only [hc, Keyed.returned.injEq, Prod.mk.injEq] at h
        obtain ⟨⟨h1, h2⟩, _⟩ := h
        have := cursorLoop_inRange k keys' 0 0 r col rest' (by omega) (by omega) (by omega)
          (by omega) hc
        subst h1 h2
        refine ⟨this.1, this.2.1, this.2.2.1, this.2.2.2, rfl, ?_⟩
        simp [Client.startTurn, hf]
      | exited => simp [hc] at h
      | waiting => simp [hc] at h
    | exited => simp [hp] at h
    | waiting => simp [hp] at h
  · simp only [if_neg hf] at h
    cases hc : cursorLoop k keys 0 0 with
    | returned p rest' =>
      obtain ⟨r, col⟩ := p
      simp only [hc, Keyed.returned.injEq, Prod.mk.injEq] at h
      obtain ⟨⟨h1, h2⟩, _⟩ := h
      have := cursorLoop_inRange k keys 0 0 r col rest' (by omega) (by omega) (by omega)
        (by omega) hc
      subst h1 h2
      refine ⟨this.1, this.2.1, this.2.2.1, this.2.2.2, rfl, ?_⟩
      simp [Client.startTurn, hf]
    | exited => simp [hc] at h
    | waiting => simp [hc] at h

theorem userTurn_total (k : Keypad) (c : Client) (mv : Move) (nav rest : List Int)
    (hf : c.game_over_flag = 0) (hs : SPACE ∉ nav) (hq : CHAR_Q ∉ nav) :
    ∃ mv', userTurn k c (nav ++ SPACE :: rest) mv = Keyed.returned (c, mv') rest := by
  obtain ⟨r, col, hc⟩ := cursorLoop_total k nav rest 0 0 hs hq
  refine ⟨{ mv with row := r, col := col }, ?_⟩
  unfold userTurn
  simp [hf, hc]

theorem userTurn_total_game_over (k : Keypad) (c : Client) (mv : Move)
    (pre nav rest : List Int) (hf : c.game_over_flag ≠ 0)
    (hy : CHAR_Y ∉ pre) (hn : CHAR_N ∉ pre) (hs : SPACE ∉ nav) (hq : CHAR_Q ∉ nav) :
    ∃ mv', userTurn k c (pre ++ CHAR_Y :: (nav ++ SPACE :: rest)) mv =
      Keyed.returned (c.newRound, mv') rest := by
  obtain ⟨r, col, hc⟩ := cursorLoop_total k nav rest 0 0 hs hq
  refine ⟨{ mv with row := r, col := col }, ?_⟩
  unfold userTurn
  simp [hf, hc, continuePrompt_total pre _ hy hn]


theorem ttt_play_steps_invalid_eq (s : Server) (client_mv server_mv : Move)
    (h : (validMove s client_mv).1 ≠ STATUS_OK) :
    ttt_play_steps s client_mv server_mv = [] := by
  unfold ttt_play_steps
  dsimp only
  rw [dif_neg h]

theorem ttt_play_steps_valid_eq (s : Server) (client_mv server_mv : Move) (i j : Fin 3)
    (hi : ((i : Nat) : Int) = client_mv.row) (hj : ((j : Nat) : Int) = client_mv.col)
    (he : s.board i j = EMPTY_CELL) :
    ttt_play_steps s client_mv server_mv = resolveSteps (placeClient s i j) server_mv := by
  have hv := validMove_ok s client_mv i j hi hj he
  have h1 : (validMove s client_mv).1 = STATUS_OK := by rw [hv]
  unfold ttt_play_steps
  dsimp only
  rw [dif_pos h1]
  simp only [validMove_snd, subscript_eq _ _ _ i hi, subscript_eq _ _ _ j hj]
  rfl

theorem terminal_of_not_ok (s : Server) (h : ttt_status s ≠ STATUS_OK) :
    ttt_status s = TIED ∨ ttt_status s = CLIENT_WINS ∨ ttt_status s = SERVER_WINS := by
  rcases ttt_status_cases s with h1 | h1 | h1 | h1
  · exact Or.inr (Or.inr h1.1)
  · exact Or.inr (Or.inl h1.1)
  · exact absurd h1.1 h
  · exact Or.inl h1.1

theorem resolveSteps_not_ok (s : Server) (server_mv : Move) (h : ttt_status s ≠ STATUS_OK) :
    resolveSteps s server_mv = [s, clear_board s] := by
  unfold resolveSteps
  dsimp only
  rw [if_neg h, if_pos (terminal_of_not_ok s h)]

theorem resolveSteps_ok (s : Server) (server_mv : Move) (h : ttt_status s = STATUS_OK)
    (i j : Fin 3) (hf : firstEmptyCell s.board = some (i, j)) :
    resolveSteps s server_mv =
      if ttt_status (placeServer s i j) = STATUS_OK then [s, placeServer s i j]
      else [s, placeServer s i j, clear_board (placeServer s i j)] := by
  unfold resolveSteps
  dsimp only
  rw [if_pos h, counterAttack_of_first _ _ i j hf]
  dsimp only
  by_cases h2 : ttt_status (placeServer s i j) = STATUS_OK
  · have h2' := h2
    unfold placeServer at h2'
    rw [if_pos h2, h2', if_neg (by simp [STATUS_OK, TIED, CLIENT_WINS, SERVER_WINS])]
    rfl
  · have ht := terminal_of_not_ok _ h2
    rw [if_neg h2]
    unfold placeServer at ht ⊢
    rw [if_pos ht]

/-- The four ways through `ttt_play`, each with the result and the boards that
arise on the way. -/
theorem ttt_play_cases (s : Server) (client_mv server_mv : Move) :
    ((validMove s client_mv).1 ≠ STATUS_OK ∧
      ttt_play s client_mv server_mv = (s, { server_mv with status := INVALID_MOVE }) ∧
      ttt_play_steps s client_mv server_mv = []) ∨
    (∃ i j : Fin 3, ((i : Nat) : Int) = client_mv.row ∧ ((j : Nat) : Int) = client_mv.col ∧
      s.board i j = EMPTY_CELL ∧
      ((ttt_status (placeClient s i j) ≠ STATUS_OK ∧
        ttt_play s client_mv server_mv =
          (clear_board (placeClient s i j),
            { server_mv with status := ttt_status (placeClient s i j) }) ∧
        ttt_play_steps s client_mv server_mv =
          [placeClient s i j, clear_board (placeClient s i j)]) ∨
      (ttt_status (placeClient s i j) = STATUS_OK ∧
        ∃ k l : Fin 3, IsFirstEmpty (placeClient s i j).board k l ∧
          ((ttt_status (placeServer (placeClient s i j) k l) = STATUS_OK ∧
            ttt_play s client_mv server_mv =
              (placeServer (placeClient s i j) k l,
                ⟨STATUS_OK, ((k : Nat) : Int), ((l : Nat) : Int)⟩) ∧
            ttt_play_steps s client_mv server_mv =
              [placeClient s i j, placeServer (placeClient s i j) k l]) ∨
          (ttt_status (placeServer (placeClient s i j) k l) ≠ STATUS_OK ∧
            ttt_play s client_mv server_mv =
              (clear_board (placeServer (placeClient s i j) k l),
                ⟨ttt_status (placeServer (placeClient s i j) k l),
                  ((k : Nat) : Int), ((l : Nat) : Int)⟩) ∧
            ttt_play_steps s client_mv server_mv =
              [placeClient s i j, placeServer (placeClient s i j) k l,
                clear_board (placeServer (placeClient s i j) k l)]))))) := by
  by_cases hv : (validMove s client_mv).1 = STATUS_OK
  · right
    obtain ⟨_, _, _, _, i, j, hi, hj, he⟩ := (validMove_fst_ok_iff s client_mv).1 hv
    refine ⟨i, j, hi, hj, he, ?_⟩
    rw [ttt_play_valid_eq s client_mv server_mv i j hi hj he,
      ttt_play_steps_valid_eq s client_mv server_mv i j hi hj he]
    by_cases h1 : ttt_status (placeClient s i j) = STATUS_OK
    · right
      refine ⟨h1, ?_⟩
      rcases firstEmptyCell_spec (placeClient s i j).board with ⟨k, l, hf, hfirst⟩ | ⟨_, hne⟩
      · refine ⟨k, l, hfirst, ?_⟩
        rw [resolveRound_ok _ server_mv h1 k l hf, resolveSteps_ok _ server_mv h1 k l hf]
        by_cases h2 : ttt_status (placeServer (placeClient s i j) k l) = STATUS_OK
        · left
          rw [if_pos h2, if_pos h2]
          exact ⟨h2, rfl, rfl⟩
        · right
          rw [if_neg h2, if_neg h2]
          exact ⟨h2, rfl, rfl⟩
      · rcases ttt_status_cases (placeClient s i j) with c | c | c | c
        · exact absurd (c.1.symm.trans h1) (by simp [STATUS_OK, SERVER_WINS])
        · exact absurd (c.1.symm.trans h1) (by simp [STATUS_OK, CLIENT_WINS])
        · exact absurd c.2.2.2 hne
        · exact absurd (c.1.symm.trans h1) (by simp [STATUS_OK, TIED])
    · left
      rw [resolveRound_not_ok _ server_mv h1, resolveSteps_not_ok _ server_mv h1]
      exact ⟨h1, rfl, rfl⟩
  · left
    exact ⟨hv, ttt_play_invalid_eq s client_mv server_mv hv,
      ttt_play_steps_invalid_eq s client_mv server_mv hv⟩

theorem hasLine_cell (b : Board) (m : Int) (h : HasLine b m) : ∃ i j, b i j = m := by
  rcases h with ⟨i, hi⟩ | ⟨j, hj⟩ | hd | hd
  · exact ⟨i, 0, hi 0⟩
  · exact ⟨0, j, hj 0⟩
  · exact ⟨0, 0, hd 0⟩
  · exact ⟨0, _, hd 0⟩

theorem not_hasLine_of_allEmpty (b : Board) (m : Int) (hb : AllEmpty b) (hm : m ≠ EMPTY_CELL) :
    ¬ HasLine b m := by
  intro h
  obtain ⟨i, j, hij⟩ := hasLine_cell b m h
  exact hm (hij.symm.trans (hb i j))

theorem ttt_status_of_allEmpty (s : Server) (hb : AllEmpty s.board)
    (hc : s.client_char ≠ EMPTY_CELL) (hs : s.server_char ≠ EMPTY_CELL) :
    ttt_status s = STATUS_OK := by
  rcases ttt_status_cases s with c | c | c | c
  · exact absurd c.2 (not_hasLine_of_allEmpty _ _ hb hs)
  · exact absurd c.2 (not_hasLine_of_allEmpty _ _ hb hc)
  · exact c.1
  · exact absurd ⟨0, 0, hb 0 0⟩ c.2.2.2

theorem not_hasLine_set (b : Board) (i j : Fin 3) (v m : Int) (hv : v ≠ m)
    (h : ¬ HasLine b m) : ¬ HasLine (b.set i j v) m :=
  fun hl => h (hasLine_mono _ _ _ (fun i' j' e => set_eq_imp b i j v m hv i' j' e) hl)

theorem no_lines_of_ok (s : Server) (h : ttt_status s = STATUS_OK) :
    ¬ HasLine s.board s.server_char ∧ ¬ HasLine s.board s.client_char := by
  rcases ttt_status_cases s with c | c | c | c
  · exact absurd (c.1.symm.trans h) (by simp [STATUS_OK, SERVER_WINS])
  · exact absurd (c.1.symm.trans h) (by simp [STATUS_OK, CLIENT_WINS])
  · exact ⟨c.2.1, c.2.2.1⟩
  · exact absurd (c.1.symm.trans h) (by simp [STATUS_OK, TIED])

theorem ttt_status_clear_board (s : Server) (hm : MarksValid s) :
    ttt_status (clear_board s) = STATUS_OK :=
  ttt_status_of_allEmpty _ (clear_board_allEmpty s) hm.2.1 hm.2.2

/-- One call of `ttt_play` on a position with status `STATUS_OK`: the marks stay,
the position after the call has status `STATUS_OK` again, and no board on the
way has a line of each mark. -/
theorem ttt_play_invariant (s : Server) (client_mv server_mv : Move) (hm : MarksValid s)
    (hok : ttt_status s = STATUS_OK) :
    (ttt_play s client_mv server_mv).1.client_char = s.client_char ∧
    (ttt_play s client_mv server_mv).1.server_char = s.server_char ∧
    ttt_status (ttt_play s client_mv server_mv).1 = STATUS_OK ∧
    ∀ t ∈ ttt_play_steps s client_mv server_mv,
      ¬ (HasLine t.board s.client_char ∧ HasLine t.board s.server_char) := by
  have hno := no_lines_of_ok s hok
  have hpc : ∀ i j, ¬ HasLine (placeClient s i j).board s.server_char :=
    fun i j => not_hasLine_set _ i j _ _ hm.1 hno.1
  have hclr : ∀ t : Server, t.client_char = s.client_char → t.server_char = s.server_char →
      ttt_status (clear_board t) = STATUS_OK ∧
      ¬ (HasLine (clear_board t).board s.client_char ∧
        HasLine (clear_board t).board s.server_char) := by
    intro t h1 h2
    have hmt : MarksValid t := by
      unfold MarksValid
      rw [h1, h2]
      exact hm
    exact ⟨ttt_status_clear_board t hmt,
      fun hh => not_hasLine_of_allEmpty _ _ (clear_board_allEmpty t) hm.2.1 hh.1⟩
  rcases ttt_play_cases s client_mv server_mv with ⟨_, hp, hs⟩ |
    ⟨i, j, _, _, _, ⟨h1, hp, hs⟩ | ⟨h1, k, l, _, ⟨h2, hp, hs⟩ | ⟨h2, hp, hs⟩⟩⟩
  · rw [hp, hs]
    exact ⟨rfl, rfl, hok, fun t ht => by simp at ht⟩
  · rw [hp, hs]
    refine ⟨rfl, rfl, (hclr (placeClient s i j) rfl rfl).1, ?_⟩
    intro t ht
    simp only [List.mem_cons, List.mem_singleton, List.not_mem_nil, or_false] at ht
    rcases ht with ht | ht
    · rw [ht]
      exact fun hh => hpc i j hh.2
    · rw [ht]
      exact (hclr (placeClient s i j) rfl rfl).2
  · have hno1 := no_lines_of_ok _ h1
    have hps : ¬ HasLine (placeServer (placeClient s i j) k l).board s.client_char :=
      not_hasLine_set _ k l _ _ (Ne.symm hm.1) hno1.2
    rw [hp, hs]
    refine ⟨rfl, rfl, h2, ?_⟩
    intro t ht
    simp only [List.mem_cons, List.mem_singleton, List.not_mem_nil, or_false] at ht
    rcases ht with ht | ht
    · rw [ht]
      exact fun hh => hpc i j hh.2
    · rw [ht]
      exact fun hh => hps hh.1
  · have hno1 := no_lines_of_ok _ h1
    have hps : ¬ HasLine (placeServer (placeClient s i j) k l).board s.client_char :=
      not_hasLine_set _ k l _ _ (Ne.symm hm.1) hno1.2
    rw [hp, hs]
    refine ⟨rfl, rfl, (hclr (placeServer (placeClient s i j) k l) rfl rfl).1, ?_⟩
    intro t ht
    simp only [List.mem_cons, List.mem_singleton, List.not_mem_nil, or_false] at ht
    rcases ht with ht | ht | ht
    · rw [ht]
      exact fun hh => hpc i j hh.2
    · rw [ht]
      exact fun hh => hps hh.1
    · rw [ht]
      exact (hclr (placeServer (placeClient s i j) k l) rfl rfl).2

theorem serve_invariant (moves : List Move) :
    ∀ (s : Server) (servers_move : Move), MarksValid s → ttt_status s = STATUS_OK →
      (serve s servers_move moves).1.client_char = s.client_char ∧
      (serve s servers_move moves).1.server_char = s.server_char ∧
      ttt_status (serve s servers_move moves).1 = STATUS_OK := by
  induction moves with
  | nil =>
    intro s servers_move _ hok
    exact ⟨rfl, rfl, hok⟩
  | cons m rest ih =>
    intro s servers_move hm hok
    obtain ⟨h1, h2, h3, _⟩ := ttt_play_invariant s m servers_move hm hok
    have hm' : MarksValid (ttt_play s m servers_move).1 := by
      unfold MarksValid
      rw [h1, h2]
      exact hm
    obtain ⟨g1, g2, g3⟩ := ih _ (ttt_play s m servers_move).2 hm' h3
    unfold serve
    exact ⟨g1.trans h1, g2.trans h2, g3⟩

/-- The position after a call of `ttt_play` is the last of the boards that arise
during the call (the position before it when none arises). -/
theorem ttt_play_steps_last (s : Server) (client_mv server_mv : Move) :
    (ttt_play s client_mv server_mv).1 = (ttt_play_steps s client_mv server_mv).getLastD s := by
  rcases ttt_play_cases s client_mv server_mv with ⟨_, hp, hs⟩ |
    ⟨i, j, _, _, _, ⟨h1, hp, hs⟩ | ⟨h1, k, l, _, ⟨h2, hp, hs⟩ | ⟨h2, hp, hs⟩⟩⟩ <;>
  rw [hp, hs] <;> rfl

theorem init_new_game_ok (s0 : Server) (hndshk : Handshake)
    (hm : hndshk.client_char ≠ hndshk.server_char ∧ hndshk.client_char ≠ EMPTY_CELL ∧
      hndshk.server_char ≠ EMPTY_CELL) :
    MarksValid (init_new_game s0 hndshk) ∧
    (init_new_game s0 hndshk).client_char = hndshk.client_char ∧
    (init_new_game s0 hndshk).server_char = hndshk.server_char ∧
    AllEmpty (init_new_game s0 hndshk).board ∧
    ttt_status (init_new_game s0 hndshk) = STATUS_OK := by
  have hmv : MarksValid (init_new_game s0 hndshk) := hm
  exact ⟨hmv, rfl, rfl, clear_board_allEmpty _,
    ttt_status_of_allEmpty _ (clear_board_allEmpty _) hmv.2.1 hmv.2.2⟩


theorem client_write_eq (c : Client) (r col v : Int) (i j : Fin 3)
    (hi : ((i : Nat) : Int) = r) (hj : ((j : Nat) : Int) = col) :
    c.write r col v = some { c with board := c.board.set i j v } := by
  have hb : 0 ≤ r ∧ BOARD_SIZE > r ∧ 0 ≤ col ∧ BOARD_SIZE > col := by
    unfold BOARD_SIZE
    omega
  unfold Client.write
  rw [dif_pos hb, subscript_eq _ _ _ i hi, subscript_eq _ _ _ j hj]

theorem client_writeBoth_eq (c : Client) (mv my_mv : Move) (k l i j : Fin 3)
    (hk : ((k : Nat) : Int) = mv.row) (hl : ((l : Nat) : Int) = mv.col)
    (hi : ((i : Nat) : Int) = my_mv.row) (hj : ((j : Nat) : Int) = my_mv.col) :
    c.writeBoth mv my_mv =
      some { c with board := (c.board.set k l c.serverChar).set i j c.clientChar } := by
  unfold Client.writeBoth
  rw [client_write_eq c _ _ _ k l hk hl]
  dsimp only
  rw [client_write_eq _ _ _ _ i j hi hj]

theorem processServerResponse_terminal (c : Client) (mv my_mv : Move)
    (h : mv.status = TIED ∨ mv.status = CLIENT_WINS ∨ mv.status = SERVER_WINS) :
    processServerResponse c mv my_mv =
      Client.writeBoth { c with game_over_flag := 1 } mv my_mv := by
  unfold processServerResponse
  rcases h with h | h | h <;> rw [h] <;>
    simp [STATUS_OK, INVALID_MOVE, TIED, CLIENT_WINS, SERVER_WINS]

theorem processServerResponse_ok (c : Client) (mv my_mv : Move) (h : mv.status = STATUS_OK) :
    processServerResponse c mv my_mv = c.writeBoth mv my_mv := by
  unfold processServerResponse
  rw [if_pos h]

theorem processServerResponse_invalid (c : Client) (mv my_mv : Move)
    (h : mv.status = INVALID_MOVE) :
    processServerResponse c mv my_mv = some c := by
  unfold processServerResponse
  rw [h]
  simp [STATUS_OK, INVALID_MOVE]

theorem exists_fin_of_range (x : Int) (h0 : 0 ≤ x) (h1 : x < 3) :
    ∃ i : Fin 3, ((i : Nat) : Int) = x :=
  ⟨⟨x.toNat, by omega⟩, by simp [h0]⟩

theorem ttt_status_first_move (s : Server) (i j : Fin 3) (hb : AllEmpty s.board)
    (hm : MarksValid s) : ttt_status (placeClient s i j) = STATUS_OK := by
  have hkey : ∀ i' j', (placeClient s i j).board i' j' ≠ EMPTY_CELL → i' = i ∧ j' = j := by
    intro i' j' hne
    by_contra hcon
    apply hne
    show s.board.set i j s.client_char i' j' = EMPTY_CELL
    rw [set_other _ _ _ _ _ _ (fun e => hcon ⟨congrArg Prod.fst e, congrArg Prod.snd e⟩)]
    exact hb i' j'
  have h01 : (0 : Fin 3) ≠ 1 := by decide
  have hcc : ∀ i' j', (placeClient s i j).board i' j' = s.client_char → i' = i ∧ j' = j :=
    fun i' j' e => hkey i' j' (by rw [e]; exact hm.2.1)
  rcases ttt_status_cases (placeClient s i j) with c | c | c | c
  · exfalso
    exact not_hasLine_set _ i j _ _ hm.1 (not_hasLine_of_allEmpty _ _ hb hm.2.2) c.2
  · exfalso
    rcases c.2 with ⟨a, ha⟩ | ⟨b, hb'⟩ | hd | hd
    · exact h01 ((hcc _ _ (ha 0)).2.trans (hcc _ _ (ha 1)).2.symm)
    · exact h01 ((hcc _ _ (hb' 0)).1.trans (hcc _ _ (hb' 1)).1.symm)
    · exact h01 ((hcc _ _ (hd 0)).1.trans (hcc _ _ (hd 1)).1.symm)
    · exact h01 ((hcc _ _ (hd 0)).1.trans (hcc _ _ (hd 1)).1.symm)
  · exact c.1
  · exfalso
    apply h01
    have e0 : (placeClient s i j).board 0 0 ≠ EMPTY_CELL := fun e => c.2.2.2 ⟨0, 0, e⟩
    have e1 : (placeClient s i j).board 1 0 ≠ EMPTY_CELL := fun e => c.2.2.2 ⟨1, 0, e⟩
    exact (hkey _ _ e0).1.trans (hkey _ _ e1).1.symm

theorem set_comm (b : Board) (i j k l : Fin 3) (v w : Int) (h : (k, l) ≠ (i, j)) :
    (b.set k l v).set i j w = (b.set i j w).set k l v := by
  funext i' j'
  unfold Board.set
  by_cases h1 : i' = i ∧ j' = j
  · by_cases h2 : i' = k ∧ j' = l
    · exfalso
      apply h
      rw [← h1.1, ← h1.2, ← h2.1, ← h2.2]
    · rw [if_pos h1, if_neg h2, if_pos h1]
  · by_cases h2 : i' = k ∧ j' = l
    · rw [if_neg h1, if_pos h2, if_pos h2]
    · rw [if_neg h1, if_neg h2, if_neg h2, if_neg h1]

theorem allEmpty_ext (b b' : Board) (h : AllEmpty b) (h' : AllEmpty b') : b = b' := by
  funext i j
  rw [h i j, h' i j]

theorem startTurn_of_synced (c : Client) (s : Server) (sm : Move) (h : Synced c s sm) :
    c.startTurn.board = s.board ∧ c.startTurn.game_over_flag = 0 ∧
    c.startTurn.clientChar = X_CELL ∧ c.startTurn.serverChar = O_CELL := by
  obtain ⟨h1, h2, _, _, _, h6, _⟩ := h
  rcases h6 with ⟨hf, hb⟩ | ⟨hf, hb⟩
  · have e : c.startTurn = c := by
      unfold Client.startTurn
      rw [if_neg (by simpa using hf)]
    rw [e]
    exact ⟨hb, hf, h1, h2⟩
  · have e : c.startTurn = c.newRound := by
      unfold Client.startTurn
      rw [if_pos hf]
    rw [e]
    refine ⟨allEmpty_ext _ _ ?_ hb, rfl, h1, h2⟩
    intro i j
    show c.clear_board.board i j = EMPTY_CELL
    rw [client_clear_board_board]


theorem exchange_step (c1 : Client) (s : Server) (sm m : Move)
    (hb : c1.board = s.board) (hf : c1.game_over_flag = 0)
    (hcX : c1.clientChar = X_CELL) (hcO : c1.serverChar = O_CELL)
    (hsX : s.client_char = X_CELL) (hsO : s.server_char = O_CELL)
    (hok : ttt_status s = STATUS_OK)
    (hr : AllEmpty s.board ∨ (0 ≤ sm.row ∧ sm.row < 3 ∧ 0 ≤ sm.col ∧ sm.col < 3)) :
    ∃ c' s' sm', exchange c1 s sm m = some (c', s', sm') ∧ Synced c' s' sm' := by
  have hmv : MarksValid s := by
    unfold MarksValid
    rw [hsX, hsO]
    decide
  have hclr : ∀ t : Server, t.client_char = s.client_char → t.server_char = s.server_char →
      (clear_board t).client_char = X_CELL ∧ (clear_board t).server_char = O_CELL ∧
      ttt_status (clear_board t) = STATUS_OK ∧ AllEmpty (clear_board t).board := by
    intro t h1 h2
    have hmt : MarksValid t := by
      unfold MarksValid
      rw [h1, h2]
      exact hmv
    exact ⟨h1.trans hsX, h2.trans hsO, ttt_status_clear_board t hmt, clear_board_allEmpty t⟩
  unfold exchange
  rcases ttt_play_cases s m sm with ⟨_, hp, _⟩ |
    ⟨i, j, hi, hj, he, ⟨h1, hp, _⟩ | ⟨h1, k, l, hkl, ⟨h2, hp, _⟩ | ⟨h2, hp, _⟩⟩⟩
  · rw [hp]
    dsimp only
    rw [processServerResponse_invalid _ _ _ rfl]
    exact ⟨_, _, _, rfl, hcX, hcO, hsX, hsO, hok, Or.inl ⟨hf, hb⟩, hr⟩
  · rw [hp]
    dsimp only
    have hrange : 0 ≤ sm.row ∧ sm.row < 3 ∧ 0 ≤ sm.col ∧ sm.col < 3 := by
      rcases hr with hr | hr
      · exact absurd (ttt_status_first_move s i j hr hmv) h1
      · exact hr
    obtain ⟨k, hk⟩ := exists_fin_of_range sm.row hrange.1 hrange.2.1
    obtain ⟨l, hl⟩ := exists_fin_of_range sm.col hrange.2.2.1 hrange.2.2.2
    rw [processServerResponse_terminal _ _ _ (terminal_of_not_ok _ h1),
      client_writeBoth_eq _ { sm with status := ttt_status (placeClient s i j) } m k l i j
        hk hl hi hj]
    obtain ⟨g1, g2, g3, g4⟩ := hclr (placeClient s i j) rfl rfl
    exact ⟨_, _, _, rfl, hcX, hcO, g1, g2, g3, Or.inr ⟨by simp, g4⟩, Or.inl g4⟩
  · rw [hp]
    dsimp only
    rw [processServerResponse_ok _ _ _ rfl, client_writeBoth_eq _ _ _ k l i j rfl rfl hi hj]
    have hne : (k, l) ≠ (i, j) := by
      intro e
      have hk : k = i := congrArg Prod.fst e
      have hl : l = j := congrArg Prod.snd e
      have := hkl.1
      rw [hk, hl] at this
      simp only [placeClient, set_same] at this
      exact hmv.2.1 this
    refine ⟨_, _, _, rfl, hcX, hcO, hsX, hsO, h2, Or.inl ⟨hf, ?_⟩, Or.inr ?_⟩
    · show (c1.board.set k l c1.serverChar).set i j c1.clientChar =
        (s.board.set i j s.client_char).set k l s.server_char
      rw [hb, hcX, hcO, hsX, hsO]
      exact set_comm _ _ _ _ _ _ _ hne
    · dsimp only
      omega
  · rw [hp]
    dsimp only
    rw [processServerResponse_terminal _ _ _ (terminal_of_not_ok _ h2),
      client_writeBoth_eq _ _ _ k l i j rfl rfl hi hj]
    obtain ⟨g1, g2, g3, g4⟩ := hclr (placeServer (placeClient s i j) k l) rfl rfl
    exact ⟨_, _, _, rfl, hcX, hcO, g1, g2, g3, Or.inr ⟨by simp, g4⟩, Or.inl g4⟩

theorem mirrorPlay_synced (moves : List Move) :
    ∀ (c : Client) (s : Server) (sm : Move), Synced c s sm →
      ∃ c' s' sm', mirrorPlay c s sm moves = some (c', s', sm') ∧ c'.board = s'.board := by
  induction moves with
  | nil =>
    intro c s sm h
    exact ⟨_, _, _, rfl, (startTurn_of_synced c s sm h).1⟩
  | cons m rest ih =>
    intro c s sm h
    obtain ⟨hb, hf, hcX, hcO⟩ := startTurn_of_synced c s sm h
    obtain ⟨_, _, hsX, hsO, hok, _, hr⟩ := h
    obtain ⟨c', s', sm', he, hs⟩ := exchange_step c.startTurn s sm m hb hf hcX hcO hsX hsO hok hr
    obtain ⟨c2, s2, sm2, hp, hb2⟩ := ih c' s' sm' hs
    refine ⟨c2, s2, sm2, ?_, hb2⟩
    unfold mirrorPlay
    rw [he]
    exact hp

theorem synced_start (b : Board) (s0 : Server) (sm : Move) :
    Synced (clientStart b) (serverStart s0) sm := by
  obtain ⟨_, h1, h2, h3, h4⟩ := init_new_game_ok s0 ⟨X_CELL, O_CELL⟩ (by decide)
  refine ⟨rfl, rfl, h1, h2, h4, Or.inl ⟨rfl, allEmpty_ext _ _ ?_ h3⟩, Or.inl h3⟩
  intro i j
  show (Client.clear_board ⟨b, 0, X_CELL, O_CELL⟩).board i j = EMPTY_CELL
  rw [client_clear_board_board]

theorem cursorLoop_eq_foldl (k : Keypad) (nav rest : List Int) :
    ∀ (row col : Int), 0 ≤ row → row < 3 → 0 ≤ col → col < 3 →
      SPACE ∉ nav → CHAR_Q ∉ nav →
      cursorLoop k (nav ++ SPACE :: rest) row col =
        Keyed.returned (nav.foldl (moveCursor k) (row, col)) rest := by
  induction nav with
  | nil =>
    intro row col _ _ _ _ _ _
    simp [cursorLoop]
  | cons ch nav ih =>
    intro row col h0 h1 h2 h3 hs hq
    have hs1 : ch ≠ SPACE := fun e => hs (by simp [e])
    have hq1 : ch ≠ CHAR_Q := fun e => hq (by simp [e])
    have hs2 : SPACE ∉ nav := fun e => hs (by simp [e])
    have hq2 : CHAR_Q ∉ nav := fun e => hq (by simp [e])
    rw [List.cons_append, List.foldl_cons]
    unfold cursorLoop
    rw [if_pos hs1]
    unfold moveCursor
    simp only [BOARD_SIZE]
    by_cases c1 : ch = k.KEY_DOWN
    · rw [if_pos c1, if_pos c1]
      have e : (if row + 1 ≥ 3 then (0 : Int) else row + 1) = (row + 1) % 3 := by
        split_ifs <;> omega
      rw [e]
      exact ih _ _ (by omega) (by omega) h2 h3 hs2 hq2
    rw [if_neg c1, if_neg c1]
    by_cases c2 : ch = k.KEY_UP
    · rw [if_pos c2, if_pos c2]
      have e : (if row - 1 < 0 then (3 : Int) - 1 else row - 1) = (row + 2) % 3 := by
        split_ifs <;> omega
      rw [e]
      exact ih _ _ (by omega) (by omega) h2 h3 hs2 hq2
    rw [if_neg c2, if_neg c2]
    by_cases c3 : ch = k.KEY_RIGHT
    · rw [if_pos c3, if_pos c3]
      have e : (if col + 1 ≥ 3 then (0 : Int) else col + 1) = (col + 1) % 3 := by
        split_ifs <;> omega
      rw [e]
      exact ih _ _ h0 h1 (by omega) (by omega) hs2 hq2
    rw [if_neg c3, if_neg c3]
    by_cases c4 : ch = k.KEY_LEFT
    · rw [if_pos c4, if_pos c4]
      have e : (if col - 1 < 0 then (3 : Int) - 1 else col - 1) = (col + 2) % 3 := by
        split_ifs <;> omega
      rw [e]
      exact ih _ _ h0 h1 (by omega) (by omega) hs2 hq2
    rw [if_neg c4, if_neg c4, if_neg hq1]
    exact ih _ _ h0 h1 h2 h3 hs2 hq2

theorem userTurn_stores_cursor (k : Keypad) (c : Client) (mv : Move) (nav rest : List Int)
    (hf : c.game_over_flag = 0) (hs : SPACE ∉ nav) (hq : CHAR_Q ∉ nav) :
    userTurn k c (nav ++ SPACE :: rest) mv =
      Keyed.returned
        (c, { mv with row := (cursorAfter k nav).1, col := (cursorAfter k nav).2 }) rest := by
  have hc := cursorLoop_eq_foldl k nav rest 0 0 (by omega) (by omega) (by omega) (by omega)
    hs hq
  unfold userTurn
  simp only [hf, ne_eq, not_true_eq_false, if_false, hc]
  rfl

theorem userTurn_stores_cursor_game_over (k : Keypad) (c : Client) (mv : Move)
    (pre nav rest : List Int) (hf : c.game_over_flag ≠ 0)
    (hy : CHAR_Y ∉ pre) (hn : CHAR_N ∉ pre) (hs : SPACE ∉ nav) (hq : CHAR_Q ∉ nav) :
    userTurn k c (pre ++ CHAR_Y :: (nav ++ SPACE :: rest)) mv =
      Keyed.returned
        (c.newRound, { mv with row := (cursorAfter k nav).1, col := (cursorAfter k nav).2 })
        rest := by
  have hc := cursorLoop_eq_foldl k nav rest 0 0 (by omega) (by omega) (by omega) (by omega)
    hs hq
  unfold userTurn
  simp only [if_pos hf, continuePrompt_total pre _ hy hn, hc]
  rfl

theorem lineTest_of_server (s : Server) (l : Int × Int × Int) (h : LineIs l s.server_char) :
    lineTest s l = some SERVER_WINS := by
  rw [lineTest_eq_reference]
  unfold LineIs at h
  unfold referenceLineTest
  rw [if_pos h]

theorem lineTest_of_client (s : Server) (l : Int × Int × Int) (h : LineIs l s.client_char)
    (hn : ¬ LineIs l s.server_char) : lineTest s l = some CLIENT_WINS := by
  rw [lineTest_eq_reference]
  unfold LineIs at h hn
  unfold referenceLineTest
  rw [if_neg hn, if_pos h]

theorem lineTest_of_neither (s : Server) (l : Int × Int × Int)
    (hs : ¬ LineIs l s.server_char) (hc : ¬ LineIs l s.client_char) :
    lineTest s l = none := by
  rw [lineTest_eq_reference]
  unfold LineIs at hs hc
  unfold referenceLineTest
  rw [if_neg hs, if_neg hc]

theorem findSome?_first (s : Server) (pre post : List (Int × Int × Int))
    (l : Int × Int × Int) (r : Int)
    (hpre : ∀ l' ∈ pre, ¬ LineIs l' s.server_char ∧ ¬ LineIs l' s.client_char)
    (hl : lineTest s l = some r) :
    (pre ++ l :: post).findSome? (lineTest s) = some r := by
  have hnone : pre.findSome? (lineTest s) = none := by
    rw [List.findSome?_eq_none_iff]
    intro l' hl'
    exact lineTest_of_neither s l' (hpre l' hl').1 (hpre l' hl').2
  rw [List.findSome?_append, hnone, findSome?_cons_or, hl]
  rfl

theorem ttt_status_first_line (s : Server) (pre post : List (Int × Int × Int))
    (l : Int × Int × Int) (hsplit : sourceOrder s.board = pre ++ l :: post)
    (hpre : ∀ l' ∈ pre, ¬ LineIs l' s.server_char ∧ ¬ LineIs l' s.client_char) :
    (LineIs l s.server_char → ttt_status s = SERVER_WINS) ∧
    (LineIs l s.client_char → ¬ LineIs l s.server_char → ttt_status s = CLIENT_WINS) := by
  constructor
  · intro h
    rw [ttt_status_eq, hsplit, findSome?_first s pre post l _ hpre (lineTest_of_server s l h)]
  · intro h hn
    rw [ttt_status_eq, hsplit, findSome?_first s pre post l _ hpre (lineTest_of_client s l h hn)]

/-! ## Theorems -/

/-- C1: `validMove` returns `STATUS_OK` exactly when row and column lie in
`[0, 3)` and the addressed cell is `EMPTY_CELL`; in every other case it returns
`INVALID_MOVE`; the globals (the board among them) are the same after the call. -/
theorem validMove_spec (s : Server) (mv : Move) :
    ((validMove s mv).1 = STATUS_OK ↔
      (0 ≤ mv.row ∧ mv.row < 3 ∧ 0 ≤ mv.col ∧ mv.col < 3 ∧
        ∃ i j : Fin 3, ((i : Nat) : Int) = mv.row ∧ ((j : Nat) : Int) = mv.col ∧
          s.board i j = EMPTY_CELL)) ∧
    ((validMove s mv).1 ≠ STATUS_OK → (validMove s mv).1 = INVALID_MOVE) ∧
    (validMove s mv).2 = s := by
  refine ⟨validMove_fst_ok_iff s mv, fun hne => ?_, validMove_snd s mv⟩
  rcases validMove_fst_cases s mv with h | h
  · exact absurd h hne
  · exact h

/-- C2, as stated, fails: on a board whose top row is uniformly the client's
mark and whose middle row is uniformly the server's mark (cells and marks
valid), a line is uniformly the server's mark, yet `ttt_status` does not
return `SERVER_WINS` (it returns `CLIENT_WINS`, the top row being tested first). -/
theorem ttt_status_server_line_unreported :
    CellsValid bothLines ∧ MarksValid bothLines ∧
    HasLine bothLines.board bothLines.server_char ∧
    ttt_status bothLines = CLIENT_WINS ∧
    ¬ (ttt_status bothLines = SERVER_WINS ↔ HasLine bothLines.board bothLines.server_char) := by
  decide

/-- C2 (amended): on every board, `ttt_status` returns `SERVER_WINS` only if
some row, column or diagonal is uniformly the server's mark and `CLIENT_WINS`
only if one is uniformly the client's mark; it returns one of the two whenever
some line is uniformly one of the marks; when only one of the two marks
has such a line, it returns that mark's win; and in general the first line of
the scan order (row 0, column 0, row 1, column 1, row 2, column 2, the main
diagonal, the other diagonal: the lines of `sourceOrder`, which are all the
rows, columns and diagonals) that is uniformly one of the marks decides:
`SERVER_WINS` if it is uniformly the server's mark, `CLIENT_WINS` if it is
uniformly the client's mark and not the server's. (Holds without any assumption
on the cells or the marks.) -/
theorem ttt_status_wins (s : Server) :
    (ttt_status s = SERVER_WINS → HasLine s.board s.server_char) ∧
    (ttt_status s = CLIENT_WINS → HasLine s.board s.client_char) ∧
    (HasLine s.board s.server_char ∨ HasLine s.board s.client_char →
      ttt_status s = SERVER_WINS ∨ ttt_status s = CLIENT_WINS) ∧
    (HasLine s.board s.server_char ∧ ¬ HasLine s.board s.client_char →
      ttt_status s = SERVER_WINS) ∧
    (HasLine s.board s.client_char ∧ ¬ HasLine s.board s.server_char →
      ttt_status s = CLIENT_WINS) ∧
    (∀ m, HasLine s.board m ↔ ∃ l ∈ sourceOrder s.board, LineIs l m) ∧
    (∀ pre l post, sourceOrder s.board = pre ++ l :: post →
      (∀ l' ∈ pre, ¬ LineIs l' s.server_char ∧ ¬ LineIs l' s.client_char) →
      (LineIs l s.server_char → ttt_status s = SERVER_WINS) ∧
      (LineIs l s.client_char → ¬ LineIs l s.server_char → ttt_status s = CLIENT_WINS)) := by
  refine ⟨?_, ?_, ?_, ?_, ?_, fun m => hasLine_iff_mem s.board m,
    fun pre l post hsplit hpre => ttt_status_first_line s pre post l hsplit hpre⟩
  all_goals
    rcases ttt_status_cases s with h | h | h | h
    all_goals
      obtain ⟨hst, hrest⟩ := h
      rw [hst]
      simp only [SERVER_WINS, CLIENT_WINS, STATUS_OK, TIED]
      intro hyp
      simp_all

/-- C2 (amended) at a concrete input: on `bothLines` the first line of the scan
order, the top row, is uniformly the client's mark, a later line is uniformly
the server's mark, and `ttt_status` returns `CLIENT_WINS`. -/
theorem ttt_status_wins_witness :
    LineIs (row bothLines.board 0) bothLines.client_char ∧
    ¬ LineIs (row bothLines.board 0) bothLines.server_char ∧
    HasLine bothLines.board bothLines.server_char ∧
    ttt_status bothLines = CLIENT_WINS :=
  ⟨by decide, by decide, by decide,
    ((ttt_status_wins bothLines).2.2.2.2.2.2 [] (row bothLines.board 0)
      [column bothLines.board 0, row bothLines.board 1, column bothLines.board 1,
        row bothLines.board 2, column bothLines.board 2, diagonal bothLines.board,
        antidiagonal bothLines.board] rfl
      (fun _ h => absurd h (List.not_mem_nil _))).2 (by decide) (by decide)⟩

/-- C3: `ttt_status` returns `TIED` exactly when no cell is `EMPTY_CELL` and no
row, column or diagonal is uniformly the client's or the server's mark; it
returns `STATUS_OK` exactly when no such line is complete and some cell is
`EMPTY_CELL`. (Holds without any assumption on the cells or the marks.) -/
theorem ttt_status_tied_ok (s : Server) :
    (ttt_status s = TIED ↔
      (¬ HasEmpty s.board ∧ ¬ HasLine s.board s.client_char ∧
        ¬ HasLine s.board s.server_char)) ∧
    (ttt_status s = STATUS_OK ↔
      (¬ HasLine s.board s.client_char ∧ ¬ HasLine s.board s.server_char ∧
        HasEmpty s.board)) := by
  rcases ttt_status_cases s with h | h | h | h
  all_goals
    obtain ⟨hst, hrest⟩ := h
    rw [hst]
    simp only [SERVER_WINS, CLIENT_WINS, STATUS_OK, TIED]
    constructor <;> constructor <;> intro hyp <;> simp_all

/-- C4: on a board with at least one `EMPTY_CELL`, `counterAttack` writes the
server's mark into the first `EMPTY_CELL` in row-major order, stores that cell's
row and column in the move, and leaves the move's status, every other cell and
the two marks unchanged. -/
theorem counterAttack_spec (s : Server) (new_move : Move) (h : HasEmpty s.board) :
    ∃ i j : Fin 3, IsFirstEmpty s.board i j ∧
      (counterAttack s new_move).1.board i j = s.server_char ∧
      (∀ i' j', (i', j') ≠ (i, j) →
        (counterAttack s new_move).1.board i' j' = s.board i' j') ∧
      (counterAttack s new_move).2.row = ((i : Nat) : Int) ∧
      (counterAttack s new_move).2.col = ((j : Nat) : Int) ∧
      (counterAttack s new_move).2.status = new_move.status ∧
      (counterAttack s new_move).1.server_char = s.server_char ∧
      (counterAttack s new_move).1.client_char = s.client_char := by
  rcases firstEmptyCell_spec s.board with ⟨i, j, hf, hfirst⟩ | ⟨_, hne⟩
  · refine ⟨i, j, hfirst, ?_⟩
    rw [counterAttack_of_first s new_move i j hf]
    exact ⟨set_same _ _ _ _, fun i' j' hij => set_other _ _ _ _ _ _ hij, rfl, rfl, rfl, rfl, rfl⟩
  · exact absurd h hne

/-- C4 at a concrete input: the board with only the top left corner taken has an
`EMPTY_CELL`, and the conclusion of `counterAttack_spec` holds for it. -/
theorem counterAttack_spec_witness :
    HasEmpty cornerTaken.board ∧
    ∃ i j : Fin 3, IsFirstEmpty cornerTaken.board i j ∧
      (counterAttack cornerTaken ⟨STATUS_OK, 5, 7⟩).1.board i j = cornerTaken.server_char ∧
      (∀ i' j', (i', j') ≠ (i, j) →
        (counterAttack cornerTaken ⟨STATUS_OK, 5, 7⟩).1.board i' j' = cornerTaken.board i' j') ∧
      (counterAttack cornerTaken ⟨STATUS_OK, 5, 7⟩).2.row = ((i : Nat) : Int) ∧
      (counterAttack cornerTaken ⟨STATUS_OK, 5, 7⟩).2.col = ((j : Nat) : Int) ∧
      (counterAttack cornerTaken ⟨STATUS_OK, 5, 7⟩).2.status = STATUS_OK ∧
      (counterAttack cornerTaken ⟨STATUS_OK, 5, 7⟩).1.server_char = cornerTaken.server_char ∧
      (counterAttack cornerTaken ⟨STATUS_OK, 5, 7⟩).1.client_char = cornerTaken.client_char :=
  ⟨by decide, counterAttack_spec cornerTaken ⟨STATUS_OK, 5, 7⟩ (by decide)⟩

/-- C5: when the client's move is invalid (row or column outside `[0, 3)`, or the
addressed cell not `EMPTY_CELL`), `ttt_play` sets the response's status to
`INVALID_MOVE`, leaves the response's row and column as they were, and leaves the
globals (board and marks) exactly as they were. -/
theorem ttt_play_invalid (s : Server) (client_mv server_mv : Move)
    (h : client_mv.row < 0 ∨ 3 ≤ client_mv.row ∨ client_mv.col < 0 ∨ 3 ≤ client_mv.col ∨
      ∃ i j : Fin 3, ((i : Nat) : Int) = client_mv.row ∧ ((j : Nat) : Int) = client_mv.col ∧
        s.board i j ≠ EMPTY_CELL) :
    (ttt_play s client_mv server_mv).2.status = INVALID_MOVE ∧
    (ttt_play s client_mv server_mv).2.row = server_mv.row ∧
    (ttt_play s client_mv server_mv).2.col = server_mv.col ∧
    (ttt_play s client_mv server_mv).1 = s := by
  have hne : (validMove s client_mv).1 ≠ STATUS_OK := by
    intro hok
    obtain ⟨h0, h1, h2, h3, i, j, hi, hj, he⟩ := (validMove_fst_ok_iff s client_mv).1 hok
    rcases h with h | h | h | h | ⟨i', j', hi', hj', he'⟩
    · omega
    · omega
    · omega
    · omega
    · have e1 : i' = i := Fin.ext (by omega)
      have e2 : j' = j := Fin.ext (by omega)
      rw [e1, e2] at he'
      exact he' he
  rw [ttt_play_invalid_eq s client_mv server_mv hne]
  exact ⟨rfl, rfl, rfl, rfl⟩

/-- C5 at a concrete input (a move onto an occupied cell): the hypothesis of
`ttt_play_invalid` holds and so does its conclusion. -/
theorem ttt_play_invalid_witness :
    cornerTaken.board 0 0 ≠ EMPTY_CELL ∧
    (ttt_play cornerTaken ⟨0, 0, 0⟩ ⟨7, 8, 9⟩).2.status = INVALID_MOVE ∧
    (ttt_play cornerTaken ⟨0, 0, 0⟩ ⟨7, 8, 9⟩).2.row = 8 ∧
    (ttt_play cornerTaken ⟨0, 0, 0⟩ ⟨7, 8, 9⟩).2.col = 9 ∧
    (ttt_play cornerTaken ⟨0, 0, 0⟩ ⟨7, 8, 9⟩).1 = cornerTaken :=
  ⟨by decide, ttt_play_invalid cornerTaken ⟨0, 0, 0⟩ ⟨7, 8, 9⟩
    (Or.inr (Or.inr (Or.inr (Or.inr ⟨0, 0, rfl, rfl, by decide⟩))))⟩

/-- C6: whenever the status that `ttt_play` puts in the response is `TIED`,
`CLIENT_WINS` or `SERVER_WINS`, every cell of the board after the call is
`EMPTY_CELL`; in particular, when a valid client move at `(i, j)` leaves no
`EMPTY_CELL` and no row, column or diagonal uniformly one of the marks, the
response's status is `TIED` and the board after the call is all `EMPTY_CELL`. -/
theorem ttt_play_terminal_clears (s : Server) (client_mv server_mv : Move) :
    ((ttt_play s client_mv server_mv).2.status = TIED ∨
      (ttt_play s client_mv server_mv).2.status = CLIENT_WINS ∨
      (ttt_play s client_mv server_mv).2.status = SERVER_WINS →
        AllEmpty (ttt_play s client_mv server_mv).1.board) ∧
    (∀ i j : Fin 3, ((i : Nat) : Int) = client_mv.row → ((j : Nat) : Int) = client_mv.col →
      s.board i j = EMPTY_CELL →
      ¬ HasEmpty (placeClient s i j).board →
      ¬ HasLine (placeClient s i j).board s.server_char →
      ¬ HasLine (placeClient s i j).board s.client_char →
        (ttt_play s client_mv server_mv).2.status = TIED ∧
        AllEmpty (ttt_play s client_mv server_mv).1.board) := by
  constructor
  · intro h
    by_cases hv : (validMove s client_mv).1 = STATUS_OK
    · obtain ⟨_, _, _, _, i, j, hi, hj, he⟩ := (validMove_fst_ok_iff s client_mv).1 hv
      rw [ttt_play_valid_eq s client_mv server_mv i j hi hj he] at h ⊢
      exact resolveRound_terminal _ _ h
    · rw [ttt_play_invalid_eq s client_mv server_mv hv] at h
      exact absurd h (by simp [INVALID_MOVE, TIED, CLIENT_WINS, SERVER_WINS])
  · intro i j hi hj he hfull hs hc
    have ht : ttt_status (placeClient s i j) = TIED := by
      rcases ttt_status_cases (placeClient s i j) with c | c | c | c
      · exact absurd c.2 hs
      · exact absurd c.2 hc
      · exact absurd c.2.2.2 hfull
      · exact c.1
    have hno : ttt_status (placeClient s i j) ≠ STATUS_OK := by
      rw [ht]
      simp [TIED, STATUS_OK]
    rw [ttt_play_valid_eq s client_mv server_mv i j hi hj he,
      resolveRound_not_ok _ _ hno]
    exact ⟨ht, clear_board_allEmpty _⟩

/-- C6 at a concrete input (Scenario D): the client's `X` at `(2, 2)` fills the
last `EMPTY_CELL` of `lastCell` and completes no line; the response is `TIED` and
the board is cleared. -/
theorem ttt_play_terminal_clears_witness :
    lastCell.board 2 2 = EMPTY_CELL ∧
    ¬ HasEmpty (placeClient lastCell 2 2).board ∧
    (ttt_play lastCell ⟨0, 2, 2⟩ ⟨7, 8, 9⟩).2.status = TIED ∧
    AllEmpty (ttt_play lastCell ⟨0, 2, 2⟩ ⟨7, 8, 9⟩).1.board :=
  ⟨by decide, by decide,
    (ttt_play_terminal_clears lastCell ⟨0, 2, 2⟩ ⟨7, 8, 9⟩).2 2 2 rfl rfl
      (by decide) (by decide) (by decide) (by decide)⟩

/-- C7: for distinct marks other than `EMPTY_CELL` and a valid client move at
`(i, j)` to which `ttt_play` responds with `STATUS_OK`, the response's row and
column are the first `EMPTY_CELL` in row-major order of the board with the
client's mark placed at `(i, j)`, and the board after the call is the original
one with the client's mark at `(i, j)`, the server's mark at the response cell
and every other cell unchanged. -/
theorem ttt_play_ok (s : Server) (client_mv server_mv : Move) (i j : Fin 3)
    (hm : MarksValid s)
    (hi : ((i : Nat) : Int) = client_mv.row) (hj : ((j : Nat) : Int) = client_mv.col)
    (he : s.board i j = EMPTY_CELL)
    (hok : (ttt_play s client_mv server_mv).2.status = STATUS_OK) :
    ∃ k l : Fin 3, IsFirstEmpty (placeClient s i j).board k l ∧
      (ttt_play s client_mv server_mv).2 = ⟨STATUS_OK, ((k : Nat) : Int), ((l : Nat) : Int)⟩ ∧
      (k, l) ≠ (i, j) ∧
      (ttt_play s client_mv server_mv).1.board i j = s.client_char ∧
      (ttt_play s client_mv server_mv).1.board k l = s.server_char ∧
      (∀ i' j', (i', j') ≠ (i, j) → (i', j') ≠ (k, l) →
        (ttt_play s client_mv server_mv).1.board i' j' = s.board i' j') := by
  rw [ttt_play_valid_eq s client_mv server_mv i j hi hj he] at hok ⊢
  by_cases h1 : ttt_status (placeClient s i j) = STATUS_OK
  · rcases firstEmptyCell_spec (placeClient s i j).board with ⟨k, l, hf, hfirst⟩ | ⟨hnone, hne⟩
    · rw [resolveRound_ok _ server_mv h1 k l hf] at hok ⊢
      by_cases h2 : ttt_status (placeServer (placeClient s i j) k l) = STATUS_OK
      · rw [if_pos h2]
        have hkl : (k, l) ≠ (i, j) := by
          intro e
          have hk : k = i := congrArg Prod.fst e
          have hl : l = j := congrArg Prod.snd e
          have := hfirst.1
          rw [hk, hl] at this
          simp only [placeClient, set_same] at this
          exact hm.2.1 this
        refine ⟨k, l, hfirst, rfl, hkl, ?_, ?_, ?_⟩
        · show ((s.board.set i j s.client_char).set k l s.server_char) i j = s.client_char
          rw [set_other _ _ _ _ _ _ (Ne.symm hkl), set_same]
        · show ((s.board.set i j s.client_char).set k l s.server_char) k l = s.server_char
          rw [set_same]
        · intro i' j' h1' h2'
          show ((s.board.set i j s.client_char).set k l s.server_char) i' j' = s.board i' j'
          rw [set_other _ _ _ _ _ _ h2', set_other _ _ _ _ _ _ h1']
      · rw [if_neg h2] at hok
        exact absurd hok h2
    · rcases ttt_status_cases (placeClient s i j) with c | c | c | c
      · exact absurd (c.1.symm.trans h1) (by simp [STATUS_OK, SERVER_WINS])
      · exact absurd (c.1.symm.trans h1) (by simp [STATUS_OK, CLIENT_WINS])
      · exact absurd c.2.2.2 hne
      · exact absurd (c.1.symm.trans h1) (by simp [STATUS_OK, TIED])
  · rw [resolveRound_not_ok _ server_mv h1] at hok
    exact absurd hok h1

/-- C7 at a concrete input (Scenario A): on the empty board the client's move
`(1, 1)` is valid, `ttt_play` responds `STATUS_OK` with the cell `(0, 0)`, and
the conclusion of `ttt_play_ok` holds. -/
theorem ttt_play_ok_witness :
    (ttt_play newGame ⟨0, 1, 1⟩ ⟨7, 8, 9⟩).2 = ⟨STATUS_OK, 0, 0⟩ ∧
    ∃ k l : Fin 3, IsFirstEmpty (placeClient newGame 1 1).board k l ∧
      (ttt_play newGame ⟨0, 1, 1⟩ ⟨7, 8, 9⟩).2 = ⟨STATUS_OK, ((k : Nat) : Int), ((l : Nat) : Int)⟩ ∧
      (k, l) ≠ (1, 1) ∧
      (ttt_play newGame ⟨0, 1, 1⟩ ⟨7, 8, 9⟩).1.board 1 1 = newGame.client_char ∧
      (ttt_play newGame ⟨0, 1, 1⟩ ⟨7, 8, 9⟩).1.board k l = newGame.server_char ∧
      (∀ i' j', (i', j') ≠ (1, 1) → (i', j') ≠ (k, l) →
        (ttt_play newGame ⟨0, 1, 1⟩ ⟨7, 8, 9⟩).1.board i' j' = newGame.board i' j') :=
  ⟨by decide, ttt_play_ok newGame ⟨0, 1, 1⟩ ⟨7, 8, 9⟩ 1 1 (by decide) rfl rfl rfl (by decide)⟩

/-- C8: when no line of the board is uniformly the server's mark, the marks are
distinct and not `EMPTY_CELL`, and a valid client move at `(i, j)` makes some
row, column or diagonal uniformly the client's mark, `ttt_play` responds with
status `CLIENT_WINS`, leaves the response's row and column as they were (no
counter-move is made) and leaves every cell of the board `EMPTY_CELL`. -/
theorem ttt_play_client_wins (s : Server) (client_mv server_mv : Move) (i j : Fin 3)
    (hm : MarksValid s) (hs : ¬ HasLine s.board s.server_char)
    (hi : ((i : Nat) : Int) = client_mv.row) (hj : ((j : Nat) : Int) = client_mv.col)
    (he : s.board i j = EMPTY_CELL)
    (hc : HasLine (placeClient s i j).board s.client_char) :
    (ttt_play s client_mv server_mv).2 = { server_mv with status := CLIENT_WINS } ∧
    AllEmpty (ttt_play s client_mv server_mv).1.board := by
  have hs' : ¬ HasLine (placeClient s i j).board (placeClient s i j).server_char := by
    intro hl
    exact hs (hasLine_mono _ _ _ (fun i' j' h => set_eq_imp _ i j _ _ hm.1 i' j' h) hl)
  have ht : ttt_status (placeClient s i j) = CLIENT_WINS := by
    rcases ttt_status_cases (placeClient s i j) with c | c | c | c
    · exact absurd c.2 hs'
    · exact c.1
    · exact absurd hc c.2.2.1
    · exact absurd hc c.2.2.1
  have hno : ttt_status (placeClient s i j) ≠ STATUS_OK := by
    rw [ht]
    simp [CLIENT_WINS, STATUS_OK]
  rw [ttt_play_valid_eq s client_mv server_mv i j hi hj he, resolveRound_not_ok _ _ hno, ht]
  exact ⟨rfl, clear_board_allEmpty _⟩

/-- C8 at a concrete input (Scenario C): on the board with rows `X X _`, `O O _`,
`_ _ _` the client's move `(0, 2)` completes the top row; the response is
`CLIENT_WINS` with row and column untouched, and the board is cleared. -/
theorem ttt_play_client_wins_witness :
    MarksValid scenarioC ∧ ¬ HasLine scenarioC.board scenarioC.server_char ∧
    scenarioC.board 0 2 = EMPTY_CELL ∧
    HasLine (placeClient scenarioC 0 2).board scenarioC.client_char ∧
    (ttt_play scenarioC ⟨0, 0, 2⟩ ⟨7, 8, 9⟩).2 = ⟨CLIENT_WINS, 8, 9⟩ ∧
    AllEmpty (ttt_play scenarioC ⟨0, 0, 2⟩ ⟨7, 8, 9⟩).1.board :=
  ⟨by decide, by decide, by decide, by decide,
    ttt_play_client_wins scenarioC ⟨0, 0, 2⟩ ⟨7, 8, 9⟩ 0 2 (by decide) (by decide) rfl rfl
      (by decide) (by decide)⟩

/-- C9: for every board and every pair of marks, `ttt_status` (row `i` then
column `i` for `i = 0, 1, 2`, then the diagonals) returns the same value as the
reference order of the specification (rows, then columns, then diagonals, the
server's mark tested before the client's on each line, the first satisfied line
deciding, `STATUS_OK` or `TIED` by the empty-cell test when none is). -/
theorem ttt_status_eq_reference (s : Server) : ttt_status s = ttt_status_reference s := by
  rw [ttt_status_eq, findSome?_orders, lineTest_eq_reference]
  rfl


/-- C10, the failing input: when `open` fails on the initial attempt and on the
first four retries and succeeds on the fifth retry, the loop ends with the FIFO
open (6 calls of `open`, 5 of `sleep`) and `tries == MAXTRIES`, and the session
gives up without calling `ttt_play`. -/
theorem handleRequest_lastRetryOpens :
    lastRetryOpens 5 = true ∧
    handleRequest lastRetryOpens (MAXTRIES + 1) =
      some (Handling.gaveUp, ⟨5, 6, 5, true⟩) := by
  decide

/-- C11, as stated, fails: on the mirror that follows a first exchange (the
server's `O` in the top left corner, the game not over) the single key press
space makes `userTurn` store the cell `(0, 0)`, which is not `EMPTY_CELL` on
the mirror. -/
theorem userTurn_selects_occupied_cell :
    userTurn curses afterFirstExchange [SPACE] ⟨0, 0, 0⟩ =
      Keyed.returned (afterFirstExchange, ⟨0, 0, 0⟩) [] ∧
    afterFirstExchange.board 0 0 ≠ EMPTY_CELL :=
  ⟨rfl, by decide⟩

/-- C11 (amended): whenever `userTurn` returns, the row and column it has stored
in the move request lie in `[0, 3)`, the status field of the request is
untouched, and the mirror is the one the turn began with, cleared first if the
game was over (so that the stored cell is then `EMPTY_CELL`); whether the
stored cell is empty on the mirror is otherwise not tested. And on every key
sequence that ends with space and has no earlier space or `'q'` (after a `'y'`
preceded by no `'y'` or `'n'` when the game was over) `userTurn` returns and the
cell it stores is the one under the cursor when space is pressed: the cell
reached from the top left corner by the arrow keys pressed, with wrap-around. -/
theorem userTurn_spec (k : Keypad) (c : Client) (mv : Move) :
    (∀ keys c' mv' rest, userTurn k c keys mv = Keyed.returned (c', mv') rest →
      0 ≤ mv'.row ∧ mv'.row < 3 ∧ 0 ≤ mv'.col ∧ mv'.col < 3 ∧ mv'.status = mv.status ∧
      c' = c.startTurn ∧ (c.game_over_flag ≠ 0 → AllEmpty c'.board)) ∧
    (∀ nav rest, c.game_over_flag = 0 → SPACE ∉ nav → CHAR_Q ∉ nav →
      userTurn k c (nav ++ SPACE :: rest) mv =
        Keyed.returned
          (c, { mv with row := (cursorAfter k nav).1, col := (cursorAfter k nav).2 }) rest) ∧
    (∀ pre nav rest, c.game_over_flag ≠ 0 → CHAR_Y ∉ pre → CHAR_N ∉ pre →
      SPACE ∉ nav → CHAR_Q ∉ nav →
      userTurn k c (pre ++ CHAR_Y :: (nav ++ SPACE :: rest)) mv =
        Keyed.returned
          (c.newRound, { mv with row := (cursorAfter k nav).1, col := (cursorAfter k nav).2 })
          rest) := by
  refine ⟨?_, ?_, ?_⟩
  · intro keys c' mv' rest h
    obtain ⟨h0, h1, h2, h3, h4, h5⟩ := userTurn_returned k c keys mv c' mv' rest h
    refine ⟨h0, h1, h2, h3, h4, h5, ?_⟩
    intro hf i j
    rw [h5]
    simp only [Client.startTurn, if_pos hf, Client.newRound]
    rw [client_clear_board_board]
  · intro nav rest hf hs hq
    exact userTurn_stores_cursor k c mv nav rest hf hs hq
  · intro pre nav rest hf hy hn hs hq
    exact userTurn_stores_cursor_game_over k c mv pre nav rest hf hy hn hs hq

/-- C11 (amended) at a concrete input: on the mirror that follows a first
exchange the keys down, right, space make `userTurn` return with the cell
`(1, 1)` stored, the cell under the cursor, where the client's own `X` stands. -/
theorem userTurn_spec_witness :
    userTurn curses afterFirstExchange
      ([curses.KEY_DOWN, curses.KEY_RIGHT] ++ SPACE :: []) ⟨0, 0, 0⟩ =
        Keyed.returned (afterFirstExchange, ⟨0, 1, 1⟩) [] ∧
    afterFirstExchange.board 1 1 ≠ EMPTY_CELL :=
  ⟨(userTurn_spec curses afterFirstExchange ⟨0, 0, 0⟩).2.1
    [curses.KEY_DOWN, curses.KEY_RIGHT] [] rfl (by decide) (by decide), by decide⟩

/-- C12: for distinct marks other than `EMPTY_CELL`, after `init_new_game` and any
finite sequence of client moves (valid or not) passed to `ttt_play`, the board
on which the server awaits the next move has status `STATUS_OK` and does not
hold a line of each mark, and whatever the next move is, no board that arises
while `ttt_play` handles it (after the client's mark is placed, after the
counter-move, after the clearing) holds both a line uniformly the client's mark
and a line uniformly the server's mark. -/
theorem serve_never_both_lines (s0 : Server) (hndshk : Handshake) (servers_move : Move)
    (moves : List Move)
    (hm : hndshk.client_char ≠ hndshk.server_char ∧ hndshk.client_char ≠ EMPTY_CELL ∧
      hndshk.server_char ≠ EMPTY_CELL) :
    ttt_status (serve (init_new_game s0 hndshk) servers_move moves).1 = STATUS_OK ∧
    ¬ (HasLine (serve (init_new_game s0 hndshk) servers_move moves).1.board
          hndshk.client_char ∧
        HasLine (serve (init_new_game s0 hndshk) servers_move moves).1.board
          hndshk.server_char) ∧
    ∀ clients_move,
      ∀ t ∈ ttt_play_steps (serve (init_new_game s0 hndshk) servers_move moves).1
          clients_move (serve (init_new_game s0 hndshk) servers_move moves).2,
        ¬ (HasLine t.board hndshk.client_char ∧ HasLine t.board hndshk.server_char) := by
  obtain ⟨hmv, hc, hs, _, hok⟩ := init_new_game_ok s0 hndshk hm
  obtain ⟨g1, g2, g3⟩ := serve_invariant moves (init_new_game s0 hndshk) servers_move hmv hok
  have e1 := g1.trans hc
  have e2 := g2.trans hs
  have hmv' : MarksValid (serve (init_new_game s0 hndshk) servers_move moves).1 := by
    unfold MarksValid
    rw [e1, e2]
    exact hm
  have hno := no_lines_of_ok _ g3
  rw [e1, e2] at hno
  refine ⟨g3, fun hh => hno.1 hh.2, ?_⟩
  intro clients_move t ht
  have := (ttt_play_invariant _ clients_move _ hmv' g3).2.2.2 t ht
  rw [e1, e2] at this
  exact this

/-- C12 at a concrete input: marks `X` and `O`, the globals before
`init_new_game` arbitrary (here `bothLines`), and the moves `(1, 1)`, `(0, 0)`
(invalid, the server has played there), `(0, 1)`. -/
theorem serve_never_both_lines_witness :
    ((⟨X_CELL, O_CELL⟩ : Handshake).client_char ≠ (⟨X_CELL, O_CELL⟩ : Handshake).server_char ∧
      (⟨X_CELL, O_CELL⟩ : Handshake).client_char ≠ EMPTY_CELL ∧
      (⟨X_CELL, O_CELL⟩ : Handshake).server_char ≠ EMPTY_CELL) ∧
    ttt_status (serve (init_new_game bothLines ⟨X_CELL, O_CELL⟩) ⟨7, 8, 9⟩
      [⟨0, 1, 1⟩, ⟨0, 0, 0⟩, ⟨0, 0, 1⟩]).1 = STATUS_OK ∧
    ¬ (HasLine (serve (init_new_game bothLines ⟨X_CELL, O_CELL⟩) ⟨7, 8, 9⟩
          [⟨0, 1, 1⟩, ⟨0, 0, 0⟩, ⟨0, 0, 1⟩]).1.board X_CELL ∧
        HasLine (serve (init_new_game bothLines ⟨X_CELL, O_CELL⟩) ⟨7, 8, 9⟩
          [⟨0, 1, 1⟩, ⟨0, 0, 0⟩, ⟨0, 0, 1⟩]).1.board O_CELL) ∧
    ∀ clients_move,
      ∀ t ∈ ttt_play_steps (serve (init_new_game bothLines ⟨X_CELL, O_CELL⟩) ⟨7, 8, 9⟩
          [⟨0, 1, 1⟩, ⟨0, 0, 0⟩, ⟨0, 0, 1⟩]).1 clients_move
          (serve (init_new_game bothLines ⟨X_CELL, O_CELL⟩) ⟨7, 8, 9⟩
            [⟨0, 1, 1⟩, ⟨0, 0, 0⟩, ⟨0, 0, 1⟩]).2,
        ¬ (HasLine t.board X_CELL ∧ HasLine t.board O_CELL) :=
  ⟨by decide, serve_never_both_lines bothLines ⟨X_CELL, O_CELL⟩ ⟨7, 8, 9⟩
    [⟨0, 1, 1⟩, ⟨0, 0, 0⟩, ⟨0, 0, 1⟩] (by decide)⟩


/-- C13: with the marks `X` and `O`, the client's mirror cleared and the server
set up by `init_new_game`, after every prefix of every finite sequence of client
moves (each passed to `ttt_play`, whose response struct persists between calls
and starts with arbitrary content, the response applied to the mirror by
`processServerResponse`, the mirror cleared at the start of the turn that
follows a game-over response) the run is defined (the client never subscripts
its board out of bounds) and the mirror equals the server's board when the
client is about to send its next move. (Holds for all moves, in range or not.) -/
theorem mirror_equals_server (b : Board) (s0 : Server) (servers_move : Move)
    (moves : List Move) (n : Nat) :
    ∃ c s sm, mirrorPlay (clientStart b) (serverStart s0) servers_move (moves.take n) =
      some (c, s, sm) ∧ c.board = s.board :=
  mirrorPlay_synced (moves.take n) (clientStart b) (serverStart s0) servers_move
    (synced_start b s0 servers_move)

end TTT
